import Mathlib

/-!
Shallow embedding of the `fee-policy` crate (files `src/fee-policy/src/fee_rate.rs`,
`src/fee-policy/src/tx_confirm_stat.rs`, `src/fee-policy/src/estimator.rs`).

Modelling conventions:
* `f64` values are modelled as exact rationals (`ℚ`).  The source only ever adds
  integral increments and multiplies by the literal constants `1.05`, `0.993`,
  `0.85`; every comparison settled below has a margin that is enormous compared
  with double-precision rounding, and `ℚ` has no `NaN`, so the `NaN` guards of
  `FeeRate::from_f64` and `BucketStat::inc_total_feerate` never fire in the model.
* `u64` / `usize` are modelled as `ℕ`; `saturating_sub` and the (panicking)
  `usize` decrements are modelled by truncated natural subtraction.  Where a
  claim is about such a decrement staying in range, the proofs establish that the
  decremented counter is positive, so the truncation is never exercised there.
* The fixed-size `Vec<Vec<_>>` matrices are modelled as total functions
  `ℕ → ℕ → _` together with the explicit dimensions (`max_confirm_blocks` rows,
  `buckets.length` columns); loops of the source that update each matrix cell of
  a rectangular region independently are translated pointwise.
* `FnvHashMap<H256, TxRecord>` is modelled as an association list with natural
  number keys; insertion is guarded by a membership test exactly as in the
  source (`track_tx`), so the key list stays duplicate-free.
-/

namespace FeePolicy

/-- FeeRate (fee_rate.rs): an `f64` newtype, modelled as `ℚ` (no `NaN`). -/
abbrev FeeRate := ℚ

/-- BucketStat (tx_confirm_stat.rs lines 5-10): per-bucket aggregate state. -/
structure BucketStat where
  total_feerate : ℚ
  txs_count : ℚ
  old_unconfirmed_txs : ℕ
  deriving DecidableEq

/-- BucketStat::avg_feerate (tx_confirm_stat.rs lines 23-29). -/
def BucketStat.avg_feerate (stat : BucketStat) : Option ℚ :=
  if stat.txs_count ≠ 0 then some (stat.total_feerate / stat.txs_count) else none

/-- TxConfirmStat (tx_confirm_stat.rs lines 40-53).  `buckets` is the ascending
list of bucket upper-bound feerates; it plays the role of both the
`bucket_stats` length and the `feerate_to_bucket` ordered map.  The matrices
are total functions with explicit dimensions `max_confirm_blocks` (rows) and
`buckets.length` (columns). -/
structure TxConfirmStat where
  buckets : List ℚ
  bucket_stats : ℕ → BucketStat
  confirm_target_to_confirmed_txs : ℕ → ℕ → ℚ
  confirm_target_to_failed_txs : ℕ → ℕ → ℚ
  block_unconfirmed_txs : ℕ → ℕ → ℕ
  max_confirm_blocks : ℕ
  decay_factor : ℚ

namespace TxConfirmStat

/-- TxConfirmStat::new (tx_confirm_stat.rs lines 56-89): all counters zero. -/
def new (buckets : List ℚ) (max_confirm_blocks : ℕ) (decay_factor : ℚ) : TxConfirmStat :=
  { buckets := buckets
    bucket_stats := fun _ => { total_feerate := 0, txs_count := 0, old_unconfirmed_txs := 0 }
    confirm_target_to_confirmed_txs := fun _ _ => 0
    confirm_target_to_failed_txs := fun _ _ => 0
    block_unconfirmed_txs := fun _ _ => 0
    max_confirm_blocks := max_confirm_blocks
    decay_factor := decay_factor }

/-- TxConfirmStat::bucket_index_by_feerate (tx_confirm_stat.rs lines 93-98):
index of the smallest bucket boundary that is `≥ feerate`
(`feerate_to_bucket.range(feerate..).next()` on the ascending boundary list). -/
def bucket_index_by_feerate (s : TxConfirmStat) (feerate : ℚ) : Option ℕ :=
  s.buckets.findIdx? (fun b => feerate ≤ b)

/-- TxConfirmStat::max_confirms (tx_confirm_stat.rs lines 100-102): the number
of rows of the confirmed matrix, which is `max_confirm_blocks` by construction. -/
def max_confirms (s : TxConfirmStat) : ℕ :=
  s.max_confirm_blocks

/-- TxConfirmStat::add_confirmed_tx (tx_confirm_stat.rs lines 105-120).
The source loop `for i in (blocks_to_confirm - 1)..self.max_confirms()` updates
independent cells and is translated pointwise. -/
def add_confirmed_tx (s : TxConfirmStat) (blocks_to_confirm : ℕ) (feerate : ℚ) :
    TxConfirmStat :=
  if blocks_to_confirm < 1 then s
  else
    match s.bucket_index_by_feerate feerate with
    | none => s
    | some bucket_index =>
      { s with
        confirm_target_to_confirmed_txs := fun t b =>
          if blocks_to_confirm - 1 ≤ t ∧ t < s.max_confirms ∧ b = bucket_index then
            s.confirm_target_to_confirmed_txs t b + 1
          else s.confirm_target_to_confirmed_txs t b
        bucket_stats := fun b =>
          if b = bucket_index then
            { total_feerate := (s.bucket_stats b).total_feerate + feerate
              txs_count := (s.bucket_stats b).txs_count + 1
              old_unconfirmed_txs := (s.bucket_stats b).old_unconfirmed_txs }
          else s.bucket_stats b }

/-- TxConfirmStat::add_unconfirmed_tx (tx_confirm_stat.rs lines 124-132);
returns the bucket index together with the updated state
(the source mutates `&mut self` and returns `Option<usize>`). -/
def add_unconfirmed_tx (s : TxConfirmStat) (entry_height : ℕ) (feerate : ℚ) :
    Option ℕ × TxConfirmStat :=
  match s.bucket_index_by_feerate feerate with
  | none => (none, s)
  | some bucket_index =>
    let block_index := entry_height % s.max_confirm_blocks
    (some bucket_index,
      { s with block_unconfirmed_txs := fun i b =>
          if i = block_index ∧ b = bucket_index then s.block_unconfirmed_txs i b + 1
          else s.block_unconfirmed_txs i b })

/-- TxConfirmStat::remove_unconfirmed_tx (tx_confirm_stat.rs lines 134-154).
`tip_height.saturating_sub(entry_height)` is natural subtraction; the two
`usize` decrements are truncated subtraction (Rust would panic on underflow). -/
def remove_unconfirmed_tx (s : TxConfirmStat) (entry_height tip_height : ℕ)
    (bucket_index : ℕ) (count_failure : Bool) : TxConfirmStat :=
  let tx_age := tip_height - entry_height
  if tx_age < 1 then s
  else
    let s1 :=
      if s.max_confirm_blocks ≤ tx_age then
        { s with bucket_stats := fun b =>
            if b = bucket_index then
              { s.bucket_stats b with
                old_unconfirmed_txs := (s.bucket_stats b).old_unconfirmed_txs - 1 }
            else s.bucket_stats b }
      else
        { s with block_unconfirmed_txs := fun i b =>
            if i = entry_height % s.max_confirm_blocks ∧ b = bucket_index then
              s.block_unconfirmed_txs i b - 1
            else s.block_unconfirmed_txs i b }
    if count_failure then
      { s1 with confirm_target_to_failed_txs := fun t b =>
          if t = tx_age - 1 ∧ b = bucket_index then
            s1.confirm_target_to_failed_txs t b + 1
          else s1.confirm_target_to_failed_txs t b }
    else s1

/-- Row index used by the failed-matrix increment of `remove_unconfirmed_tx`
(tx_confirm_stat.rs line 152, `confirm_target_to_failed_txs[tx_age - 1]`): the
source vector has `max_confirm_blocks` rows, so the access is in bounds exactly
when `tx_age - 1 < max_confirm_blocks`. -/
def remove_failed_index_in_bounds (s : TxConfirmStat) (entry_height tip_height : ℕ) : Prop :=
  (tip_height - entry_height) - 1 < s.max_confirm_blocks

/-- TxConfirmStat::move_track_window (tx_confirm_stat.rs lines 156-164).
The source loop over `bucket_index in 0..self.bucket_stats.len()` updates each
bucket independently and is translated pointwise. -/
def move_track_window (s : TxConfirmStat) (height : ℕ) : TxConfirmStat :=
  let block_index := height % s.max_confirm_blocks
  { s with
    bucket_stats := fun b =>
      if b < s.buckets.length then
        { s.bucket_stats b with
          old_unconfirmed_txs :=
            (s.bucket_stats b).old_unconfirmed_txs + s.block_unconfirmed_txs block_index b }
      else s.bucket_stats b
    block_unconfirmed_txs := fun i b =>
      if i = block_index ∧ b < s.buckets.length then 0 else s.block_unconfirmed_txs i b }

/-- TxConfirmStat::decay (tx_confirm_stat.rs lines 168-187).  Scales the two
matrices and the per-bucket `total_feerate` / `txs_count` by `decay_factor`;
`old_unconfirmed_txs` and the ring buffer are not touched.  The rectangular
loops are translated pointwise. -/
def decay (s : TxConfirmStat) : TxConfirmStat :=
  { s with
    confirm_target_to_confirmed_txs := fun t b =>
      if t < s.max_confirm_blocks ∧ b < s.buckets.length then
        s.confirm_target_to_confirmed_txs t b * s.decay_factor
      else s.confirm_target_to_confirmed_txs t b
    confirm_target_to_failed_txs := fun t b =>
      if t < s.max_confirm_blocks ∧ b < s.buckets.length then
        s.confirm_target_to_failed_txs t b * s.decay_factor
      else s.confirm_target_to_failed_txs t b
    bucket_stats := fun b =>
      if b < s.buckets.length then
        { total_feerate := (s.bucket_stats b).total_feerate * s.decay_factor
          txs_count := (s.bucket_stats b).txs_count * s.decay_factor
          old_unconfirmed_txs := (s.bucket_stats b).old_unconfirmed_txs }
      else s.bucket_stats b }

/-- The bucket scan of TxConfirmStat::estimate_median (tx_confirm_stat.rs lines
201-227): recursion over the remaining fuel (`buckets.length` at the top call),
carrying the four running accumulators; returns `best_bucket_end` (`0` when the
loop exhausts every bucket without breaking, as in the source where
`best_bucket_end` keeps its initial value `0`). -/
def estimate_median_loop (s : TxConfirmStat) (confirm_target required_samples : ℕ)
    (confirm_rate : ℚ) :
    ℕ → ℕ → ℚ → ℚ → ℚ → ℕ → ℕ
  | 0, _, _, _, _, _ => 0
  | fuel + 1, bucket_index, confirmed_txs, txs_count, failure_count, extra_count =>
    let confirmed_txs' :=
      confirmed_txs + s.confirm_target_to_confirmed_txs (confirm_target - 1) bucket_index
    let failure_count' :=
      failure_count + s.confirm_target_to_failed_txs (confirm_target - 1) bucket_index
    let extra_count' := extra_count + s.block_unconfirmed_txs (confirm_target - 1) bucket_index
    let txs_count' := txs_count + (s.bucket_stats bucket_index).txs_count
    if (required_samples : ℚ) < txs_count' then
      if confirm_rate < confirmed_txs' / (txs_count' + failure_count' + (extra_count' : ℚ)) then
        bucket_index
      else
        estimate_median_loop s confirm_target required_samples confirm_rate
          fuel (bucket_index + 1) confirmed_txs' txs_count' failure_count' extra_count'
    else
      estimate_median_loop s confirm_target required_samples confirm_rate
        fuel (bucket_index + 1) confirmed_txs' txs_count' failure_count' extra_count'

/-- The `best_bucket_end` value computed by the scan loop of `estimate_median`
(accumulators start at zero, scan starts at bucket 0, fuel is the bucket count). -/
def best_bucket_end (s : TxConfirmStat) (confirm_target required_samples : ℕ)
    (confirm_rate : ℚ) : ℕ :=
  estimate_median_loop s confirm_target required_samples confirm_rate
    s.buckets.length 0 0 0 0 0

/-- The median search of TxConfirmStat::estimate_median (tx_confirm_stat.rs
lines 235-245): walk the best range, return the average feerate of the first
bucket whose count reaches the remaining half count, `0` when the walk ends. -/
def median_feerate_scan (s : TxConfirmStat) : List ℕ → ℚ → ℚ
  | [], _ => 0
  | bucket_index :: rest, half_count =>
    let stat := s.bucket_stats bucket_index
    if half_count ≤ stat.txs_count then
      match stat.avg_feerate with
      | some v => v
      | none => 0
    else
      median_feerate_scan s rest (half_count - stat.txs_count)

/-- TxConfirmStat::estimate_median (tx_confirm_stat.rs lines 192-247). -/
def estimate_median (s : TxConfirmStat) (confirm_target required_samples : ℕ)
    (confirm_rate : ℚ) : ℚ :=
  if confirm_target < 1 then 0
  else
    let best_bucket_start := 0
    let bucket_end := s.best_bucket_end confirm_target required_samples confirm_rate
    let best_range := List.range' best_bucket_start (bucket_end + 1 - best_bucket_start)
    let best_range_txs_count : ℚ :=
      (best_range.map (fun b => (s.bucket_stats b).txs_count)).sum
    if best_range_txs_count ≠ 0 then
      median_feerate_scan s best_range (best_range_txs_count / 2)
    else 0

end TxConfirmStat

/-- Constants of estimator.rs lines 7-15 (`f64` literals as exact rationals). -/
def DEFAULT_CYCLES_PER_BYTE : ℕ := 2000

def MIN_BUCKET_FEERATE : ℚ := 1000

def MAX_BUCKET_FEERATE : ℚ := 10 ^ 7

def FEE_SPACING : ℚ := 21 / 20

def MAX_CONFIRM_BLOCKS : ℕ := 1000

def MIN_ESTIMATE_SAMPLES : ℕ := 20

def MIN_ESTIMATE_CONFIRM_RATE : ℚ := 17 / 20

def DEFAULT_DECAY_FACTOR : ℚ := 993 / 1000

/-- TxRecord (estimator.rs lines 17-20). -/
structure TxRecord where
  height : ℕ
  bucket_index : ℕ
  deriving DecidableEq

/-- TxEntry (estimator.rs lines 22-28); the `H256` hash is modelled as `ℕ`. -/
structure TxEntry where
  hash : ℕ
  height : ℕ
  cycles : ℕ
  fee : ℕ
  size : ℕ
  deriving DecidableEq

/-- TxEntry::virtual_size (estimator.rs lines 35-37). -/
def TxEntry.virtual_size (tx : TxEntry) : ℕ :=
  max tx.size (tx.cycles / DEFAULT_CYCLES_PER_BYTE)

/-- TxEntry::feerate (estimator.rs lines 39-42). -/
def TxEntry.feerate (tx : TxEntry) : ℚ :=
  (tx.fee : ℚ) / (tx.virtual_size : ℚ)

/-- Lookup in the tracked-transaction map (FnvHashMap::get / contains_key). -/
def mapLookup (m : List (ℕ × TxRecord)) (k : ℕ) : Option TxRecord :=
  (m.find? (fun p => p.1 == k)).map Prod.snd

/-- Removal from the tracked-transaction map (FnvHashMap::remove); since keys
are duplicate-free this removes exactly the entry of `k` when present. -/
def mapRemove (m : List (ℕ × TxRecord)) (k : ℕ) : List (ℕ × TxRecord) :=
  m.filter (fun p => p.1 != k)

/-- Estimator (estimator.rs lines 53-58). -/
structure Estimator where
  best_height : ℕ
  first_record_height : ℕ
  tx_confirm_stat : TxConfirmStat
  tracked_txs : List (ℕ × TxRecord)

namespace Estimator

/-- The bucket-boundary generation loop of Estimator::new (estimator.rs lines
62-69), with explicit fuel standing in for the `while` loop; the fuel `1000`
used by `Estimator.new` is far beyond the 189 iterations after which the guard
`bucket_fee_boundary ≤ MAX_BUCKET_FEERATE` fails (the boundary grows by the
factor `21/20 > 1` each step), so the recursion always stops on the guard. -/
def mkBuckets : ℕ → ℚ → List ℚ
  | 0, _ => []
  | fuel + 1, bucket_fee_boundary =>
    if bucket_fee_boundary ≤ MAX_BUCKET_FEERATE then
      bucket_fee_boundary :: mkBuckets fuel (bucket_fee_boundary * FEE_SPACING)
    else []

/-- Estimator::new (estimator.rs lines 61-76). -/
def new : Estimator :=
  { best_height := 0
    first_record_height := 0
    tx_confirm_stat :=
      TxConfirmStat.new (mkBuckets 1000 MIN_BUCKET_FEERATE) MAX_CONFIRM_BLOCKS
        DEFAULT_DECAY_FACTOR
    tracked_txs := [] }

/-- Estimator::drop_tx_inner (estimator.rs lines 132-144). -/
def drop_tx_inner (e : Estimator) (tx_hash : ℕ) (count_failure : Bool) :
    Bool × Estimator :=
  match mapLookup e.tracked_txs tx_hash with
  | some tx_entry =>
    (true,
      { e with
        tracked_txs := mapRemove e.tracked_txs tx_hash
        tx_confirm_stat :=
          e.tx_confirm_stat.remove_unconfirmed_tx tx_entry.height e.best_height
            tx_entry.bucket_index count_failure })
  | none => (false, e)

/-- Estimator::process_block_tx (estimator.rs lines 78-88). -/
def process_block_tx (e : Estimator) (height : ℕ) (tx : TxEntry) : Bool × Estimator :=
  match e.drop_tx_inner tx.hash false with
  | (false, e') => (false, e')
  | (true, e') =>
    let blocks_to_confirm := height - tx.height
    (true,
      { e' with
        tx_confirm_stat := e'.tx_confirm_stat.add_confirmed_tx blocks_to_confirm tx.feerate })

/-- One step of the `iter().filter(|tx| self.process_block_tx(height, tx)).count()`
fold of Estimator::process_block: thread the mutated estimator and count the
processed transactions. -/
def process_block_step (height : ℕ) (acc : ℕ × Estimator) (tx : TxEntry) :
    ℕ × Estimator :=
  let r := acc.2.process_block_tx height tx
  (acc.1 + (if r.1 then 1 else 0), r.2)

/-- Estimator::process_block (estimator.rs lines 91-107).  The
`iter().filter(..).count()` over the block transactions is a left fold that
threads the mutated estimator and counts the processed transactions. -/
def process_block (e : Estimator) (height : ℕ) (txs : List TxEntry) : Estimator :=
  if height ≤ e.best_height then e
  else
    let e1 := { e with best_height := height }
    let e2 := { e1 with tx_confirm_stat := e1.tx_confirm_stat.move_track_window height }
    let e3 := { e2 with tx_confirm_stat := e2.tx_confirm_stat.decay }
    let folded := txs.foldl (process_block_step height) (0, e3)
    if folded.2.first_record_height = 0 ∧ 0 < folded.1 then
      { folded.2 with first_record_height := folded.2.best_height }
    else folded.2

/-- Estimator::track_tx (estimator.rs lines 109-130). -/
def track_tx (e : Estimator) (tx : TxEntry) : Estimator :=
  if (mapLookup e.tracked_txs tx.hash).isSome then e
  else if tx.height ≠ e.best_height then e
  else
    match e.tx_confirm_stat.add_unconfirmed_tx tx.height tx.feerate with
    | (some bucket_index, s') =>
      { e with
        tx_confirm_stat := s'
        tracked_txs := (tx.hash, { height := tx.height, bucket_index := bucket_index }) ::
          e.tracked_txs }
    | (none, s') => { e with tx_confirm_stat := s' }

/-- Estimator::drop_tx (estimator.rs lines 146-148). -/
def drop_tx (e : Estimator) (tx_hash : ℕ) : Bool × Estimator :=
  e.drop_tx_inner tx_hash true

/-- Estimator::estimate (estimator.rs lines 150-156). -/
def estimate (e : Estimator) (confirm_target : ℕ) : ℚ :=
  e.tx_confirm_stat.estimate_median confirm_target MIN_ESTIMATE_SAMPLES
    MIN_ESTIMATE_CONFIRM_RATE

end Estimator

/-- One mempool-lifecycle event applied to the estimator (the three public
mutating entry points of estimator.rs). -/
inductive Op where
  | track (tx : TxEntry)
  | process (height : ℕ) (txs : List TxEntry)
  | drop (tx_hash : ℕ)
  deriving DecidableEq

/-- Apply one event. -/
def applyOp (e : Estimator) : Op → Estimator
  | Op.track tx => e.track_tx tx
  | Op.process height txs => e.process_block height txs
  | Op.drop tx_hash => (e.drop_tx tx_hash).2

/-- Apply a sequence of events. -/
def applyOps (e : Estimator) (ops : List Op) : Estimator :=
  ops.foldl applyOp e

/-- Sum of one bucket column of the unconfirmed ring buffer over all rows. -/
def ringSum (s : TxConfirmStat) (b : ℕ) : ℕ :=
  ∑ i in Finset.range s.max_confirm_blocks, s.block_unconfirmed_txs i b

/-- Number of transactions currently tracked in bucket `b`. -/
def trackedCount (e : Estimator) (b : ℕ) : ℕ :=
  e.tracked_txs.countP (fun p => p.2.bucket_index == b)

/-- Running sum of `txs_count` over the bucket prefix `[0, j]`, as accumulated
by the scan loop of `estimate_median`. -/
def prefix_txs_count (s : TxConfirmStat) (j : ℕ) : ℚ :=
  ((List.range (j + 1)).map (fun b => (s.bucket_stats b).txs_count)).sum

/-- `N` successive applications of `TxConfirmStat::decay`. -/
def decayN (s : TxConfirmStat) : ℕ → TxConfirmStat
  | 0 => s
  | n + 1 => (decayN s n).decay

/-- Running sum of confirmed counts at target `confirm_target` over the bucket
prefix `[0, j]`, as accumulated by the scan loop of `estimate_median`. -/
def prefix_confirmed_count (s : TxConfirmStat) (confirm_target j : ℕ) : ℚ :=
  ((List.range (j + 1)).map
    (fun b => s.confirm_target_to_confirmed_txs (confirm_target - 1) b)).sum

/-- Running sum of failed counts at target `confirm_target` over the bucket
prefix `[0, j]`. -/
def prefix_failed_count (s : TxConfirmStat) (confirm_target j : ℕ) : ℚ :=
  ((List.range (j + 1)).map
    (fun b => s.confirm_target_to_failed_txs (confirm_target - 1) b)).sum

/-- Running sum of the ring-buffer row `confirm_target - 1` over the bucket
prefix `[0, j]` (the loop's `extra_count`). -/
def prefix_extra_count (s : TxConfirmStat) (confirm_target j : ℕ) : ℕ :=
  ((List.range (j + 1)).map
    (fun b => s.block_unconfirmed_txs (confirm_target - 1) b)).sum

/-- The accumulated confirmed rate over the bucket prefix `[0, j]`:
`confirmed / (txs_count + failed + extra)`. -/
def prefix_confirmed_rate (s : TxConfirmStat) (confirm_target j : ℕ) : ℚ :=
  prefix_confirmed_count s confirm_target j /
    (prefix_txs_count s j + prefix_failed_count s confirm_target j +
      (prefix_extra_count s confirm_target j : ℚ))

/-- Modelled from the claim's wording (C3), for comparison with the source's
`best_bucket_end`: the first bucket index at which the accumulated count
exceeds `required_samples` and the accumulated confirmed rate is at least
(`≥`) `confirm_rate`; `0` when no bucket qualifies. -/
def claimed_best_bucket_end (s : TxConfirmStat) (confirm_target required_samples : ℕ)
    (confirm_rate : ℚ) : ℕ :=
  match (List.range s.buckets.length).find?
      (fun j => decide ((required_samples : ℚ) < prefix_txs_count s j ∧
        confirm_rate ≤ prefix_confirmed_rate s confirm_target j)) with
  | some j => j
  | none => 0

/-- Like `claimed_best_bucket_end` but with the strict comparison
(`confirmed_rate > confirm_rate`) actually performed by the source. -/
def amended_best_bucket_end (s : TxConfirmStat) (confirm_target required_samples : ℕ)
    (confirm_rate : ℚ) : ℕ :=
  match (List.range s.buckets.length).find?
      (fun j => decide ((required_samples : ℚ) < prefix_txs_count s j ∧
        confirm_rate < prefix_confirmed_rate s confirm_target j)) with
  | some j => j
  | none => 0

/-- Side condition of the amended C2 invariant on a single event: a
`process_block` call either repeats a stale height or advances the best height
by exactly one, and a `drop_tx` never removes a transaction in the same block
in which it was tracked. -/
def goodOp (e : Estimator) : Op → Bool
  | Op.track _ => true
  | Op.process height _ =>
    decide (height ≤ e.best_height) || decide (height = e.best_height + 1)
  | Op.drop tx_hash =>
    match mapLookup e.tracked_txs tx_hash with
    | none => true
    | some r => decide (r.height ≠ e.best_height)

/-- All events of a sequence satisfy `goodOp` in the state they are applied to. -/
def goodOps : Estimator → List Op → Bool
  | _, [] => true
  | e, op :: rest => goodOp e op && goodOps (applyOp e op) rest

/-- A tracked entry whose ring-buffer count lives in row `i` of bucket `b`:
its bucket is `b`, its entry height has residue `i`, and it is younger than
the window (its slot has not been retired by `move_track_window` yet). -/
def isYoungAt (best_height max_confirm_blocks i b : ℕ) (p : ℕ × TxRecord) : Bool :=
  p.2.bucket_index == b && p.2.height % max_confirm_blocks == i &&
    decide (best_height - p.2.height < max_confirm_blocks)

/-- A tracked entry of bucket `b` that has aged out of the ring buffer and is
counted in `old_unconfirmed_txs`. -/
def isAgedAt (best_height max_confirm_blocks b : ℕ) (p : ℕ × TxRecord) : Bool :=
  p.2.bucket_index == b && decide (max_confirm_blocks ≤ best_height - p.2.height)

/-- The bookkeeping invariant tying the unconfirmed ring buffer and the
`old_unconfirmed_txs` counters to the tracked-transaction map: the window size
is positive, tracked entries carry heights at most `best_height` and in-range
bucket indices, tracked keys are duplicate-free, every ring-buffer cell counts
exactly the young tracked entries of its residue row and bucket, and every
`old_unconfirmed_txs` counts exactly the aged tracked entries of its bucket. -/
def EstInv (e : Estimator) : Prop :=
  1 ≤ e.tx_confirm_stat.max_confirm_blocks ∧
  (∀ p ∈ e.tracked_txs, p.2.height ≤ e.best_height ∧
    p.2.bucket_index < e.tx_confirm_stat.buckets.length) ∧
  (e.tracked_txs.map Prod.fst).Nodup ∧
  (∀ i b, i < e.tx_confirm_stat.max_confirm_blocks →
    e.tx_confirm_stat.block_unconfirmed_txs i b =
      e.tracked_txs.countP
        (isYoungAt e.best_height e.tx_confirm_stat.max_confirm_blocks i b)) ∧
  (∀ b, (e.tx_confirm_stat.bucket_stats b).old_unconfirmed_txs =
    e.tracked_txs.countP
      (isAgedAt e.best_height e.tx_confirm_stat.max_confirm_blocks b))

/-! ### Concrete states used by counterexamples and end-to-end scenarios -/

/-- A small stat holding five confirmed samples of feerate `500` (bucket 0),
fewer than the twenty required samples. -/
def c1cex_stat : TxConfirmStat :=
  (List.range 5).foldl (fun s _ => s.add_confirmed_tx 1 500)
    (TxConfirmStat.new [1000, 2000] 3 (993 / 1000))

/-- A small stat whose bucket-0 prefix reaches a confirmed rate of exactly
`17/20`: 34 confirmed samples and 6 eviction failures in bucket 0 (the six
failed transactions are first tracked, then removed with `count_failure`),
then 6 confirmed samples in bucket 1. -/
def c3cex_stat : TxConfirmStat :=
  (List.range 6).foldl (fun s _ => s.add_confirmed_tx 1 1500)
    ((List.range 6).foldl (fun s _ => s.remove_unconfirmed_tx 0 1 0 true)
      ((List.range 34).foldl (fun s _ => s.add_confirmed_tx 1 500)
        ((List.range 6).foldl (fun s _ => (s.add_unconfirmed_tx 0 500).2)
          (TxConfirmStat.new [1000, 2000] 2 (993 / 1000)))))

/-- The `k`-th transaction of the C4 end-to-end scenario: entry height 10,
fee 2000 and virtual size 1, hence feerate exactly 2000. -/
def c4_tx (k : ℕ) : TxEntry :=
  { hash := k, height := 10, cycles := 0, fee := 2000, size := 1 }

/-- The 25 distinct transactions of the C4 end-to-end scenario. -/
def c4_txs : List TxEntry :=
  (List.range 25).map c4_tx

/-- The C4 scenario exactly as the claim words it: on a *fresh* estimator,
track the 25 height-10 transactions, then process them in a block at
height 12. -/
def c4_claim_est : Estimator :=
  (c4_txs.foldl Estimator.track_tx Estimator.new).process_block 12 c4_txs

/-- The C4 scenario with the estimator first advanced to height 10 by an empty
block, so that the height-10 `track_tx` calls are accepted. -/
def c4_amended_est : Estimator :=
  (c4_txs.foldl Estimator.track_tx (Estimator.new.process_block 10 [])).process_block
    12 c4_txs

/-- A transaction entering the pool at height 0 (the fresh estimator's
`best_height`), used by the C2 counterexample. -/
def c2cex_tx : TxEntry :=
  { hash := 0, height := 0, cycles := 0, fee := 2000, size := 1 }

/-- Track `c2cex_tx`, then drop it in the same block it entered: the
`tx_age < 1` early return of `remove_unconfirmed_tx` leaves its ring-buffer
count behind while the tracked map forgets it. -/
def c2cex_est : Estimator :=
  applyOps Estimator.new [Op.track c2cex_tx, Op.drop 0]

end FeePolicy

namespace FeePolicy

/-! ### Helper lemmas -/

attribute [local semireducible] Rat.add Rat.mul Rat.sub Rat.inv

lemma bucket_index_lt_length {s : TxConfirmStat} {r : ℚ} {b : ℕ}
    (h : s.bucket_index_by_feerate r = some b) : b < s.buckets.length := by
  unfold TxConfirmStat.bucket_index_by_feerate at h
  exact (List.findIdx?_eq_some_iff_findIdx_eq.mp h).1

lemma bucket_index_none {s : TxConfirmStat} {r : ℚ}
    (h : ∀ q ∈ s.buckets, q < r) : s.bucket_index_by_feerate r = none := by
  unfold TxConfirmStat.bucket_index_by_feerate
  exact List.findIdx?_eq_none_iff.mpr fun q hq => by
    simpa using not_le.mpr (h q hq)

/-! ### C10 -/

/-- C10: a confirmed transaction whose feerate is strictly above every bucket
boundary is silently discarded: `add_confirmed_tx` leaves the whole
`TxConfirmStat` unchanged, for every `blocks_to_confirm`. -/
theorem c10_unclassifiable_feerate_noop (s : TxConfirmStat) (K : ℕ) (r : ℚ)
    (hr : ∀ q ∈ s.buckets, q < r) :
    s.add_confirmed_tx K r = s := by
  unfold TxConfirmStat.add_confirmed_tx
  rw [bucket_index_none hr]
  split <;> rfl

/-- Witness for C10 at a concrete state and feerate. -/
theorem c10_witness :
    (∀ q ∈ (TxConfirmStat.new [1000, 2000] 3 (993 / 1000)).buckets, q < (99999 : ℚ)) ∧
      (TxConfirmStat.new [1000, 2000] 3 (993 / 1000)).add_confirmed_tx 2 99999 =
        TxConfirmStat.new [1000, 2000] 3 (993 / 1000) :=
  ⟨by decide, c10_unclassifiable_feerate_noop _ 2 99999 (by decide)⟩

/-! ### C5 -/

/-- C5: for `K ≥ 1` and a feerate `r` classified into bucket `b`,
`add_confirmed_tx K r` adds exactly `1` to `confirmed[t][b]` for every target
`t` in `[K-1, max_confirm_blocks)`, leaves every other confirmed entry and all
failed entries unchanged, adds `1` to bucket `b`'s `txs_count` and `r` to its
`total_feerate`, leaves every other bucket stat unchanged, and
`add_confirmed_tx 0 r` changes nothing at all. -/
theorem c5_add_confirmed_tx_effect (s : TxConfirmStat) (K : ℕ) (r : ℚ) (b : ℕ)
    (hb : s.bucket_index_by_feerate r = some b) (hK : 1 ≤ K) :
    (∀ t b', (s.add_confirmed_tx K r).confirm_target_to_confirmed_txs t b' =
        s.confirm_target_to_confirmed_txs t b' +
          (if K - 1 ≤ t ∧ t < s.max_confirm_blocks ∧ b' = b then 1 else 0)) ∧
    (∀ t b', (s.add_confirmed_tx K r).confirm_target_to_failed_txs t b' =
        s.confirm_target_to_failed_txs t b') ∧
    ((s.add_confirmed_tx K r).bucket_stats b).txs_count =
      (s.bucket_stats b).txs_count + 1 ∧
    ((s.add_confirmed_tx K r).bucket_stats b).total_feerate =
      (s.bucket_stats b).total_feerate + r ∧
    ((s.add_confirmed_tx K r).bucket_stats b).old_unconfirmed_txs =
      (s.bucket_stats b).old_unconfirmed_txs ∧
    (∀ b', b' ≠ b → (s.add_confirmed_tx K r).bucket_stats b' = s.bucket_stats b') ∧
    (∀ i b', (s.add_confirmed_tx K r).block_unconfirmed_txs i b' =
      s.block_unconfirmed_txs i b') ∧
    s.add_confirmed_tx 0 r = s := by
  have hKlt : ¬ K < 1 := by omega
  unfold TxConfirmStat.add_confirmed_tx
  rw [if_neg hKlt, hb]
  refine ⟨fun t b' => ?_, fun t b' => rfl, by simp, by simp, by simp,
    fun b' hb' => by simp [hb'], fun i b' => rfl, rfl⟩
  simp only [TxConfirmStat.max_confirms]
  split <;> simp

/-- Witness for C5 at a concrete state, feerate and confirmation count. -/
theorem c5_witness :
    ((TxConfirmStat.new [1000, 2000] 3 (993 / 1000)).bucket_index_by_feerate 500 =
        some 0 ∧ 1 ≤ 2) ∧
      ((TxConfirmStat.new [1000, 2000] 3 (993 / 1000)).add_confirmed_tx 2
          500).confirm_target_to_confirmed_txs 1 0 =
        (TxConfirmStat.new [1000, 2000] 3 (993 / 1000)).confirm_target_to_confirmed_txs
            1 0 + (if 2 - 1 ≤ 1 ∧ 1 < (TxConfirmStat.new [1000, 2000] 3
              (993 / 1000)).max_confirm_blocks ∧ 0 = 0 then 1 else 0) :=
  ⟨⟨by decide, by decide⟩,
    (c5_add_confirmed_tx_effect (TxConfirmStat.new [1000, 2000] 3 (993 / 1000)) 2 500 0
      (by decide) (by decide)).1 1 0⟩

/-! ### C9 -/

/-- C9: for a transaction removed with `count_failure` at age `tx_age ≥ 1`, the
failed-matrix increment of `remove_unconfirmed_tx` lands on row `tx_age - 1`,
which is in bounds exactly when `tx_age ≤ max_confirm_blocks`; consequently a
`drop_tx` of a tracked record `r` reaches an out-of-bounds row exactly when
`best_height - r.height ≤ max_confirm_blocks` fails. -/
theorem c9_remove_failed_bounds (e : Estimator) (r : TxRecord)
    (hW : 1 ≤ e.tx_confirm_stat.max_confirm_blocks) :
    (∀ entry tip : ℕ, 1 ≤ tip - entry →
      (e.tx_confirm_stat.remove_failed_index_in_bounds entry tip ↔
        tip - entry ≤ e.tx_confirm_stat.max_confirm_blocks)) ∧
    ((1 ≤ e.best_height - r.height ∧
        ¬ e.tx_confirm_stat.remove_failed_index_in_bounds r.height e.best_height) ↔
      ¬ e.best_height - r.height ≤ e.tx_confirm_stat.max_confirm_blocks) ∧
    (∀ entry tip bi, 1 ≤ tip - entry →
      (e.tx_confirm_stat.remove_unconfirmed_tx entry tip bi
            true).confirm_target_to_failed_txs (tip - entry - 1) bi =
        e.tx_confirm_stat.confirm_target_to_failed_txs (tip - entry - 1) bi + 1) := by
  refine ⟨fun entry tip h1 => ?_, ?_, fun entry tip bi h1 => ?_⟩
  · unfold TxConfirmStat.remove_failed_index_in_bounds
    omega
  · unfold TxConfirmStat.remove_failed_index_in_bounds
    omega
  · have hlt : ¬ tip - entry < 1 := by omega
    unfold TxConfirmStat.remove_unconfirmed_tx
    by_cases hW' : e.tx_confirm_stat.max_confirm_blocks ≤ tip - entry <;>
      simp [hlt, hW']

/-- Witness for C9 at a concrete estimator state and record. -/
theorem c9_witness :
    1 ≤ Estimator.new.tx_confirm_stat.max_confirm_blocks ∧
      (1 ≤ (1001 : ℕ) - 0 →
        (Estimator.new.tx_confirm_stat.remove_failed_index_in_bounds 0 1001 ↔
          (1001 : ℕ) - 0 ≤ Estimator.new.tx_confirm_stat.max_confirm_blocks)) :=
  ⟨by decide,
    fun h1 =>
      (c9_remove_failed_bounds Estimator.new { height := 0, bucket_index := 0 }
          (by decide)).1 0 1001 h1⟩

end FeePolicy

namespace FeePolicy

/-! ### C6 -/

lemma drop_tx_inner_best_height (e : Estimator) (k : ℕ) (cf : Bool) :
    (e.drop_tx_inner k cf).2.best_height = e.best_height := by
  rcases h : mapLookup e.tracked_txs k with _ | r <;>
    simp [Estimator.drop_tx_inner, h]

lemma process_block_tx_best_height (e : Estimator) (height : ℕ) (tx : TxEntry) :
    (e.process_block_tx height tx).2.best_height = e.best_height := by
  have hd := drop_tx_inner_best_height e tx.hash false
  rcases h : e.drop_tx_inner tx.hash false with ⟨b, e'⟩
  rw [h] at hd
  have hd' : e'.best_height = e.best_height := hd
  cases b <;> simp [Estimator.process_block_tx, h, hd']

lemma foldl_process_block_step_best_height (height : ℕ) (txs : List TxEntry) :
    ∀ (n : ℕ) (e : Estimator),
      ((txs.foldl (Estimator.process_block_step height) (n, e)).2).best_height =
        e.best_height := by
  induction txs with
  | nil => intro n e; rfl
  | cons t ts ih =>
    intro n e
    have hstep : Estimator.process_block_step height (n, e) t =
        (n + (if (e.process_block_tx height t).1 then 1 else 0),
          (e.process_block_tx height t).2) := rfl
    rw [List.foldl_cons, hstep, ih]
    exact process_block_tx_best_height e height t

lemma process_block_best_height_of_gt (e : Estimator) (height : ℕ)
    (txs : List TxEntry) (h : ¬ height ≤ e.best_height) :
    (e.process_block height txs).best_height = height := by
  unfold Estimator.process_block
  rw [if_neg h]
  dsimp only
  split <;> simp [foldl_process_block_step_best_height height txs 0]

/-- C6: `process_block` at a height that is at most `best_height` leaves the
estimator completely unchanged, and processing the same block twice has the
same effect as processing it once. -/
theorem c6_process_block_stale_noop (e : Estimator) (height : ℕ) (txs : List TxEntry) :
    (height ≤ e.best_height → e.process_block height txs = e) ∧
    (e.process_block height txs).process_block height txs =
      e.process_block height txs := by
  have h1 : ∀ (e' : Estimator), height ≤ e'.best_height →
      e'.process_block height txs = e' := by
    intro e' hle
    unfold Estimator.process_block
    rw [if_pos hle]
  refine ⟨h1 e, ?_⟩
  by_cases hle : height ≤ e.best_height
  · rw [h1 e hle, h1 e hle]
  · exact h1 _ (le_of_eq (process_block_best_height_of_gt e height txs hle).symm)

/-- Witness for C6 on a concrete estimator, height and block. -/
theorem c6_witness :
    (0 : ℕ) ≤ Estimator.new.best_height ∧
      Estimator.new.process_block 0 [] = Estimator.new :=
  ⟨Nat.zero_le _, (c6_process_block_stale_noop Estimator.new 0 []).1 (Nat.zero_le _)⟩

/-! ### C7 -/

lemma decay_buckets (s : TxConfirmStat) : s.decay.buckets = s.buckets := rfl

lemma decay_max_confirm_blocks (s : TxConfirmStat) :
    s.decay.max_confirm_blocks = s.max_confirm_blocks := rfl

lemma decay_factor_decay (s : TxConfirmStat) : s.decay.decay_factor = s.decay_factor := rfl

lemma decayN_buckets (s : TxConfirmStat) : ∀ N, (decayN s N).buckets = s.buckets := by
  intro N; induction N with
  | zero => rfl
  | succ n ih => rw [decayN, decay_buckets, ih]

lemma decayN_max_confirm_blocks (s : TxConfirmStat) :
    ∀ N, (decayN s N).max_confirm_blocks = s.max_confirm_blocks := by
  intro N; induction N with
  | zero => rfl
  | succ n ih => rw [decayN, decay_max_confirm_blocks, ih]

lemma decayN_decay_factor (s : TxConfirmStat) :
    ∀ N, (decayN s N).decay_factor = s.decay_factor := by
  intro N; induction N with
  | zero => rfl
  | succ n ih => rw [decayN, decay_factor_decay, ih]

lemma decayN_confirmed (s : TxConfirmStat) (N : ℕ) :
    ∀ t b, t < s.max_confirm_blocks → b < s.buckets.length →
      (decayN s N).confirm_target_to_confirmed_txs t b =
        s.confirm_target_to_confirmed_txs t b * s.decay_factor ^ N := by
  induction N with
  | zero => intro t b _ _; simp [decayN]
  | succ n ih =>
    intro t b ht hb
    have ht' : t < (decayN s n).max_confirm_blocks := by
      rw [decayN_max_confirm_blocks]; exact ht
    have hb' : b < (decayN s n).buckets.length := by
      rw [decayN_buckets]; exact hb
    rw [decayN]
    show (decayN s n).decay.confirm_target_to_confirmed_txs t b = _
    unfold TxConfirmStat.decay
    simp only [if_pos (And.intro ht' hb')]
    rw [ih t b ht hb, decayN_decay_factor]
    ring

lemma decayN_failed (s : TxConfirmStat) (N : ℕ) :
    ∀ t b, t < s.max_confirm_blocks → b < s.buckets.length →
      (decayN s N).confirm_target_to_failed_txs t b =
        s.confirm_target_to_failed_txs t b * s.decay_factor ^ N := by
  induction N with
  | zero => intro t b _ _; simp [decayN]
  | succ n ih =>
    intro t b ht hb
    have ht' : t < (decayN s n).max_confirm_blocks := by
      rw [decayN_max_confirm_blocks]; exact ht
    have hb' : b < (decayN s n).buckets.length := by
      rw [decayN_buckets]; exact hb
    rw [decayN]
    show (decayN s n).decay.confirm_target_to_failed_txs t b = _
    unfold TxConfirmStat.decay
    simp only [if_pos (And.intro ht' hb')]
    rw [ih t b ht hb, decayN_decay_factor]
    ring

lemma decayN_bucket_stats (s : TxConfirmStat) (N : ℕ) :
    ∀ b, b < s.buckets.length →
      ((decayN s N).bucket_stats b).total_feerate =
          (s.bucket_stats b).total_feerate * s.decay_factor ^ N ∧
        ((decayN s N).bucket_stats b).txs_count =
          (s.bucket_stats b).txs_count * s.decay_factor ^ N ∧
        ((decayN s N).bucket_stats b).old_unconfirmed_txs =
          (s.bucket_stats b).old_unconfirmed_txs := by
  induction N with
  | zero => intro b _; simp [decayN]
  | succ n ih =>
    intro b hb
    have hb' : b < (decayN s n).buckets.length := by
      rw [decayN_buckets]; exact hb
    obtain ⟨h1, h2, h3⟩ := ih b hb
    rw [decayN]
    show (((decayN s n).decay).bucket_stats b).total_feerate = _ ∧ _ ∧ _
    unfold TxConfirmStat.decay
    simp only [if_pos hb']
    refine ⟨?_, ?_, ?_⟩
    · rw [h1, decayN_decay_factor]; ring
    · rw [h2, decayN_decay_factor]; ring
    · exact h3

lemma decayN_old_unconfirmed (s : TxConfirmStat) (N : ℕ) :
    ∀ b, ((decayN s N).bucket_stats b).old_unconfirmed_txs =
      (s.bucket_stats b).old_unconfirmed_txs := by
  induction N with
  | zero => intro b; rfl
  | succ n ih =>
    intro b
    rw [decayN]
    show (((decayN s n).decay).bucket_stats b).old_unconfirmed_txs = _
    unfold TxConfirmStat.decay
    by_cases hb : b < (decayN s n).buckets.length <;> simp [hb, ih b]

lemma decayN_ring (s : TxConfirmStat) (N : ℕ) :
    ∀ i b, (decayN s N).block_unconfirmed_txs i b = s.block_unconfirmed_txs i b := by
  induction N with
  | zero => intro i b; rfl
  | succ n ih =>
    intro i b
    rw [decayN]
    show (((decayN s n).decay).block_unconfirmed_txs) i b = _
    unfold TxConfirmStat.decay
    exact ih i b

/-- C7: `decay` scales every confirmed and failed matrix entry and every
bucket's `total_feerate` and `txs_count` by `decay_factor` while leaving
`old_unconfirmed_txs` and the ring buffer unchanged; `N` successive
applications scale those counters by `decay_factor ^ N`, and starting from
nonnegative counters with a nonnegative factor no counter ever becomes
negative. -/
theorem c7_decay_scales (s : TxConfirmStat) (N : ℕ) :
    (∀ t b, t < s.max_confirm_blocks → b < s.buckets.length →
      (decayN s N).confirm_target_to_confirmed_txs t b =
          s.confirm_target_to_confirmed_txs t b * s.decay_factor ^ N ∧
        (decayN s N).confirm_target_to_failed_txs t b =
          s.confirm_target_to_failed_txs t b * s.decay_factor ^ N) ∧
    (∀ b, b < s.buckets.length →
      ((decayN s N).bucket_stats b).total_feerate =
          (s.bucket_stats b).total_feerate * s.decay_factor ^ N ∧
        ((decayN s N).bucket_stats b).txs_count =
          (s.bucket_stats b).txs_count * s.decay_factor ^ N) ∧
    (∀ b, ((decayN s N).bucket_stats b).old_unconfirmed_txs =
      (s.bucket_stats b).old_unconfirmed_txs) ∧
    (∀ i b, (decayN s N).block_unconfirmed_txs i b = s.block_unconfirmed_txs i b) ∧
    (0 ≤ s.decay_factor →
      ∀ t b, t < s.max_confirm_blocks → b < s.buckets.length →
        (0 ≤ s.confirm_target_to_confirmed_txs t b →
            0 ≤ (decayN s N).confirm_target_to_confirmed_txs t b) ∧
          (0 ≤ s.confirm_target_to_failed_txs t b →
            0 ≤ (decayN s N).confirm_target_to_failed_txs t b) ∧
          (0 ≤ (s.bucket_stats b).txs_count →
            0 ≤ ((decayN s N).bucket_stats b).txs_count) ∧
          (0 ≤ (s.bucket_stats b).total_feerate →
            0 ≤ ((decayN s N).bucket_stats b).total_feerate)) := by
  refine ⟨fun t b ht hb => ⟨decayN_confirmed s N t b ht hb, decayN_failed s N t b ht hb⟩,
    fun b hb => ⟨(decayN_bucket_stats s N b hb).1, (decayN_bucket_stats s N b hb).2.1⟩,
    decayN_old_unconfirmed s N, decayN_ring s N, ?_⟩
  intro hf t b ht hb
  have hpow : 0 ≤ s.decay_factor ^ N := pow_nonneg hf N
  refine ⟨fun h0 => ?_, fun h0 => ?_, fun h0 => ?_, fun h0 => ?_⟩
  · rw [decayN_confirmed s N t b ht hb]; exact mul_nonneg h0 hpow
  · rw [decayN_failed s N t b ht hb]; exact mul_nonneg h0 hpow
  · rw [(decayN_bucket_stats s N b hb).2.1]; exact mul_nonneg h0 hpow
  · rw [(decayN_bucket_stats s N b hb).1]; exact mul_nonneg h0 hpow

/-- Witness for C7 at a concrete state and iteration count. -/
theorem c7_witness :
    ((0 : ℕ) < (TxConfirmStat.new [1000] 2 (1 / 2)).max_confirm_blocks ∧
        (0 : ℕ) < (TxConfirmStat.new [1000] 2 (1 / 2)).buckets.length) ∧
      (decayN (TxConfirmStat.new [1000] 2 (1 / 2)) 3).confirm_target_to_confirmed_txs
          0 0 =
        (TxConfirmStat.new [1000] 2
              (1 / 2)).confirm_target_to_confirmed_txs 0 0 *
          (TxConfirmStat.new [1000] 2 (1 / 2)).decay_factor ^ 3 :=
  ⟨⟨by decide, by decide⟩,
    ((c7_decay_scales (TxConfirmStat.new [1000] 2 (1 / 2)) 3).1 0 0 (by decide)
        (by decide)).1⟩

end FeePolicy

namespace FeePolicy

attribute [local semireducible] Rat.add Rat.mul Rat.sub Rat.inv

/-! ### C8 -/

lemma mkBuckets_head (n : ℕ) (c : ℚ) :
    (Estimator.mkBuckets n c).head? = none ∨ (Estimator.mkBuckets n c).head? = some c := by
  cases n with
  | zero => exact Or.inl rfl
  | succ m =>
    unfold Estimator.mkBuckets
    split
    · exact Or.inr rfl
    · exact Or.inl rfl

lemma mkBuckets_chain : ∀ (fuel : ℕ) (b : ℚ), 0 < b →
    List.Chain' (· < ·) (Estimator.mkBuckets fuel b) := by
  intro fuel
  induction fuel with
  | zero => intro b _; exact List.chain'_nil
  | succ n ih =>
    intro b hb
    unfold Estimator.mkBuckets
    split
    · rw [List.chain'_cons']
      refine ⟨fun y hy => ?_, ih _ (mul_pos hb (by norm_num [FEE_SPACING]))⟩
      rcases mkBuckets_head n (b * FEE_SPACING) with h | h
      · rw [h] at hy; cases hy
      · rw [h] at hy
        rw [Option.mem_some_iff] at hy
        subst hy
        exact lt_mul_of_one_lt_right hb (by norm_num [FEE_SPACING])
    · exact List.chain'_nil

lemma mkBuckets_mem_le : ∀ (fuel : ℕ) (b q : ℚ), q ∈ Estimator.mkBuckets fuel b →
    q ≤ MAX_BUCKET_FEERATE := by
  intro fuel
  induction fuel with
  | zero => intro b q hq; cases hq
  | succ n ih =>
    intro b q hq
    unfold Estimator.mkBuckets at hq
    by_cases hle : b ≤ MAX_BUCKET_FEERATE
    · rw [if_pos hle] at hq
      rcases List.mem_cons.mp hq with rfl | hq'
      · exact hle
      · exact ih _ q hq'
    · rw [if_neg hle] at hq; cases hq

lemma getLastD_mem_of_ne_nil : ∀ (l : List ℚ) (d : ℚ), l ≠ [] → l.getLastD d ∈ l := by
  intro l
  induction l with
  | nil => intro d h; exact absurd rfl h
  | cons a l ih =>
    intro d _
    rw [List.getLastD_cons]
    cases l with
    | nil => exact List.mem_singleton.mpr rfl
    | cons b l' => exact List.mem_cons_of_mem a (ih a (by simp))

/-- C8 counterexample: the generated boundary list has 189 buckets, not on the
order of 90, and its boundaries span more than three orders of magnitude (the
last boundary exceeds `1000 * 10^3`). -/
theorem c8_counterexample :
    Estimator.new.tx_confirm_stat.buckets.length = 189 ∧
      ¬ Estimator.new.tx_confirm_stat.buckets.length ≤ 135 ∧
      MIN_BUCKET_FEERATE * 10 ^ 3 <
        Estimator.new.tx_confirm_stat.buckets.getLastD 0 := by
  refine ⟨?_, ?_, ?_⟩
  · show (Estimator.mkBuckets 1000 MIN_BUCKET_FEERATE).length = 189
    set_option maxRecDepth 100000 in decide
  · show ¬ (Estimator.mkBuckets 1000 MIN_BUCKET_FEERATE).length ≤ 135
    set_option maxRecDepth 100000 in decide
  · show MIN_BUCKET_FEERATE * 10 ^ 3 <
      (Estimator.mkBuckets 1000 MIN_BUCKET_FEERATE).getLastD 0
    set_option maxRecDepth 100000 in decide

/-- C8 amended: the boundary list is strictly increasing, starts at the
configured minimum `1000`, every boundary (in particular the last) is at most
`maximum * spacing_factor`, and there are 189 buckets (about twice the claimed
"order of 90", covering nearly four orders of magnitude). -/
theorem c8_amended :
    List.Pairwise (· < ·) Estimator.new.tx_confirm_stat.buckets ∧
      Estimator.new.tx_confirm_stat.buckets.head? = some MIN_BUCKET_FEERATE ∧
      Estimator.new.tx_confirm_stat.buckets.getLastD 0 ≤
        MAX_BUCKET_FEERATE * FEE_SPACING ∧
      Estimator.new.tx_confirm_stat.buckets.length = 189 := by
  have hlen : Estimator.new.tx_confirm_stat.buckets.length = 189 := by
    show (Estimator.mkBuckets 1000 MIN_BUCKET_FEERATE).length = 189
    set_option maxRecDepth 100000 in decide
  refine ⟨?_, ?_, ?_, hlen⟩
  · exact List.chain'_iff_pairwise.mp
      (mkBuckets_chain 1000 MIN_BUCKET_FEERATE (by norm_num [MIN_BUCKET_FEERATE]))
  · show (Estimator.mkBuckets 1000 MIN_BUCKET_FEERATE).head? = some MIN_BUCKET_FEERATE
    rcases mkBuckets_head 1000 MIN_BUCKET_FEERATE with h | h
    · rw [show (1000 : ℕ) = 999 + 1 from rfl] at h
      unfold Estimator.mkBuckets at h
      rw [if_pos (by norm_num [MIN_BUCKET_FEERATE, MAX_BUCKET_FEERATE])] at h
      cases h
    · exact h
  · have hne : Estimator.new.tx_confirm_stat.buckets ≠ [] := by
      intro hnil
      rw [hnil] at hlen
      cases hlen
    have hmem := getLastD_mem_of_ne_nil _ 0 hne
    have hle : Estimator.new.tx_confirm_stat.buckets.getLastD 0 ≤ MAX_BUCKET_FEERATE :=
      mkBuckets_mem_le 1000 MIN_BUCKET_FEERATE _ hmem
    calc Estimator.new.tx_confirm_stat.buckets.getLastD 0
        ≤ MAX_BUCKET_FEERATE := hle
      _ ≤ MAX_BUCKET_FEERATE * FEE_SPACING := by
          norm_num [MAX_BUCKET_FEERATE, FEE_SPACING]

end FeePolicy

namespace FeePolicy

attribute [local semireducible] Rat.add Rat.mul Rat.sub Rat.inv

/-! ### C1 -/

lemma range_map_sum_shift (g : ℕ → ℚ) (i m : ℕ) :
    ((List.range (m + 1)).map (fun k => g (i + k))).sum =
      g i + ((List.range m).map (fun k => g (i + 1 + k))).sum := by
  rw [List.range_succ_eq_map, List.map_cons, List.sum_cons, List.map_map]
  have hfun : (fun k => g (i + k)) ∘ Nat.succ = fun k => g (i + 1 + k) := by
    funext k
    simp only [Function.comp_apply]
    congr 1
    omega
  rw [hfun]
  norm_num

/-- If every further prefix of bucket counts keeps the running total at or
below `required_samples`, the scan loop exhausts its fuel and returns the
initial `best_bucket_end` value `0`. -/
lemma estimate_median_loop_all_le (s : TxConfirmStat) (tgt req : ℕ) (rate : ℚ) :
    ∀ (fuel i : ℕ) (c t f : ℚ) (x : ℕ),
      (∀ m : ℕ, m < fuel →
        t + ((List.range (m + 1)).map
            (fun k => (s.bucket_stats (i + k)).txs_count)).sum ≤ (req : ℚ)) →
      TxConfirmStat.estimate_median_loop s tgt req rate fuel i c t f x = 0 := by
  intro fuel
  induction fuel with
  | zero => intro i c t f x _; rfl
  | succ n ih =>
    intro i c t f x h
    have h0 := h 0 (Nat.succ_pos n)
    rw [range_map_sum_shift (fun j => (s.bucket_stats j).txs_count) i 0] at h0
    simp only [List.range_zero, List.map_nil, List.sum_nil, add_zero] at h0
    unfold TxConfirmStat.estimate_median_loop
    dsimp only
    rw [if_neg (not_lt.mpr h0)]
    apply ih
    intro m hm
    have hs := h (m + 1) (by omega)
    rw [range_map_sum_shift (fun j => (s.bucket_stats j).txs_count) i (m + 1)]
      at hs
    calc t + (s.bucket_stats i).txs_count +
          ((List.range (m + 1)).map
            (fun k => (s.bucket_stats (i + 1 + k)).txs_count)).sum
        = t + ((s.bucket_stats i).txs_count +
            ((List.range (m + 1)).map
              (fun k => (s.bucket_stats (i + 1 + k)).txs_count)).sum) := by ring
      _ ≤ (req : ℚ) := hs

/-- C1 amended: when no ascending bucket prefix accumulates more than
`required_samples` transactions and `confirm_target ≥ 1`, `estimate_median`
returns either `FeeRate::zero()` or the average feerate of bucket 0 (the
degenerate best range `[0, 0]`); it is *not* always zero when bucket 0 holds a
nonzero but insufficient count. -/
theorem c1_amended (s : TxConfirmStat) (confirm_target required_samples : ℕ)
    (confirm_rate : ℚ) (h1 : 1 ≤ confirm_target)
    (h2 : ∀ j, j < s.buckets.length →
      prefix_txs_count s j ≤ (required_samples : ℚ)) :
    s.estimate_median confirm_target required_samples confirm_rate = 0 ∨
      s.estimate_median confirm_target required_samples confirm_rate =
        (s.bucket_stats 0).total_feerate / (s.bucket_stats 0).txs_count := by
  have hend : s.best_bucket_end confirm_target required_samples confirm_rate = 0 := by
    unfold TxConfirmStat.best_bucket_end
    apply estimate_median_loop_all_le
    intro m hm
    have hj := h2 m hm
    unfold prefix_txs_count at hj
    simpa using hj
  unfold TxConfirmStat.estimate_median
  rw [if_neg (by omega : ¬ confirm_target < 1)]
  dsimp only
  rw [hend]
  have hrange : List.range' 0 (0 + 1 - 0) = [0] := rfl
  rw [hrange]
  simp only [List.map_cons, List.map_nil, List.sum_cons, List.sum_nil, add_zero]
  by_cases hc : (s.bucket_stats 0).txs_count = 0
  · rw [hc]
    simp
  · rw [if_pos hc]
    unfold TxConfirmStat.median_feerate_scan
    dsimp only
    by_cases hhalf : (s.bucket_stats 0).txs_count / 2 ≤ (s.bucket_stats 0).txs_count
    · rw [if_pos hhalf]
      unfold BucketStat.avg_feerate
      rw [if_pos hc]
      exact Or.inr rfl
    · rw [if_neg hhalf]
      exact Or.inl rfl

/-- Witness for C1 (amended) on the all-zero freshly constructed stat. -/
theorem c1_amended_witness :
    (1 ≤ 2 ∧ ∀ j, j < (TxConfirmStat.new [1000, 2000] 3 (993 / 1000)).buckets.length →
        prefix_txs_count (TxConfirmStat.new [1000, 2000] 3 (993 / 1000)) j ≤
          ((20 : ℕ) : ℚ)) ∧
      ((TxConfirmStat.new [1000, 2000] 3 (993 / 1000)).estimate_median 2 20 (17 / 20) =
          0 ∨
        (TxConfirmStat.new [1000, 2000] 3 (993 / 1000)).estimate_median 2 20 (17 / 20) =
          ((TxConfirmStat.new [1000, 2000] 3 (993 / 1000)).bucket_stats
                0).total_feerate /
            ((TxConfirmStat.new [1000, 2000] 3 (993 / 1000)).bucket_stats
                0).txs_count) :=
  ⟨⟨by decide, by decide⟩,
    c1_amended (TxConfirmStat.new [1000, 2000] 3 (993 / 1000)) 2 20 (17 / 20)
      (by decide) (by decide)⟩

/-- C1 counterexample: `c1cex_stat` satisfies the claim's hypotheses (no bucket
prefix exceeds the 20 required samples, `confirm_target = 1`), yet
`estimate_median` returns the bucket-0 average feerate `500`, not zero. -/
theorem c1_counterexample :
    (1 ≤ 1 ∧ ∀ j, j < c1cex_stat.buckets.length →
        prefix_txs_count c1cex_stat j ≤ ((20 : ℕ) : ℚ)) ∧
      c1cex_stat.estimate_median 1 20 (17 / 20) = 500 ∧
      c1cex_stat.estimate_median 1 20 (17 / 20) ≠ 0 :=
  ⟨⟨by decide, by decide⟩, by decide, by decide⟩

end FeePolicy

namespace FeePolicy

attribute [local semireducible] Rat.add Rat.mul Rat.sub Rat.inv

/-! ### C3 -/

lemma range_succ_map_sum {M : Type} [AddCommMonoid M] (g : ℕ → M) (i : ℕ) :
    ((List.range (i + 1)).map g).sum = ((List.range i).map g).sum + g i := by
  rw [List.range_succ, List.map_append, List.sum_append]
  simp

lemma prefix_confirmed_rate_def (s : TxConfirmStat) (confirm_target j : ℕ) :
    prefix_confirmed_count s confirm_target j /
        (prefix_txs_count s j + prefix_failed_count s confirm_target j +
          (prefix_extra_count s confirm_target j : ℚ)) =
      prefix_confirmed_rate s confirm_target j := rfl

/-- The scan loop of `estimate_median`, started at bucket `i` with accumulators
equal to the prefix sums over `[0, i)`, returns the first bucket `j` of the
remaining range at which the accumulated count strictly exceeds
`required_samples` and the accumulated confirmed rate strictly exceeds
`confirm_rate`, and `0` when no such bucket exists. -/
lemma estimate_median_loop_eq_find (s : TxConfirmStat) (tgt req : ℕ) (rate : ℚ) :
    ∀ (fuel i : ℕ) (c t f : ℚ) (x : ℕ),
      c = ((List.range i).map
        (fun b => s.confirm_target_to_confirmed_txs (tgt - 1) b)).sum →
      t = ((List.range i).map (fun b => (s.bucket_stats b).txs_count)).sum →
      f = ((List.range i).map
        (fun b => s.confirm_target_to_failed_txs (tgt - 1) b)).sum →
      x = ((List.range i).map (fun b => s.block_unconfirmed_txs (tgt - 1) b)).sum →
      TxConfirmStat.estimate_median_loop s tgt req rate fuel i c t f x =
        match (List.range' i fuel).find?
            (fun j => decide ((req : ℚ) < prefix_txs_count s j ∧
              rate < prefix_confirmed_rate s tgt j)) with
        | some j => j
        | none => 0 := by
  intro fuel
  induction fuel with
  | zero => intro i c t f x _ _ _ _; rfl
  | succ n ih =>
    intro i c t f x hc ht hf hx
    subst hc ht hf hx
    unfold TxConfirmStat.estimate_median_loop
    dsimp only
    rw [← range_succ_map_sum (fun b => s.confirm_target_to_confirmed_txs (tgt - 1) b) i,
      ← range_succ_map_sum (fun b => (s.bucket_stats b).txs_count) i,
      ← range_succ_map_sum (fun b => s.confirm_target_to_failed_txs (tgt - 1) b) i,
      ← range_succ_map_sum (fun b => s.block_unconfirmed_txs (tgt - 1) b) i]
    have hrw_t : ((List.range (i + 1)).map (fun b => (s.bucket_stats b).txs_count)).sum =
        prefix_txs_count s i := rfl
    have hrw_c : ((List.range (i + 1)).map
        (fun b => s.confirm_target_to_confirmed_txs (tgt - 1) b)).sum =
        prefix_confirmed_count s tgt i := rfl
    have hrw_f : ((List.range (i + 1)).map
        (fun b => s.confirm_target_to_failed_txs (tgt - 1) b)).sum =
        prefix_failed_count s tgt i := rfl
    have hrw_x : ((List.range (i + 1)).map
        (fun b => s.block_unconfirmed_txs (tgt - 1) b)).sum =
        prefix_extra_count s tgt i := rfl
    rw [hrw_t, hrw_c, hrw_f, hrw_x, prefix_confirmed_rate_def]
    have hcons : List.range' i (n + 1) = i :: List.range' (i + 1) n := rfl
    rw [hcons]
    by_cases hA : (req : ℚ) < prefix_txs_count s i
    · by_cases hB : rate < prefix_confirmed_rate s tgt i
      · have hfind : (i :: List.range' (i + 1) n).find?
            (fun j => decide ((req : ℚ) < prefix_txs_count s j ∧
              rate < prefix_confirmed_rate s tgt j)) = some i :=
          List.find?_cons_of_pos _ (decide_eq_true (And.intro hA hB))
        rw [if_pos hA, if_pos hB, hfind]
      · have hfind : (i :: List.range' (i + 1) n).find?
            (fun j => decide ((req : ℚ) < prefix_txs_count s j ∧
              rate < prefix_confirmed_rate s tgt j)) =
            (List.range' (i + 1) n).find?
              (fun j => decide ((req : ℚ) < prefix_txs_count s j ∧
                rate < prefix_confirmed_rate s tgt j)) :=
          List.find?_cons_of_neg _
            (by simp only [decide_eq_true_eq]; exact fun hand => hB hand.2)
        rw [if_pos hA, if_neg hB, hfind]
        exact ih (i + 1) _ _ _ _ rfl rfl rfl rfl
    · have hfind : (i :: List.range' (i + 1) n).find?
          (fun j => decide ((req : ℚ) < prefix_txs_count s j ∧
            rate < prefix_confirmed_rate s tgt j)) =
          (List.range' (i + 1) n).find?
            (fun j => decide ((req : ℚ) < prefix_txs_count s j ∧
              rate < prefix_confirmed_rate s tgt j)) :=
        List.find?_cons_of_neg _
          (by simp only [decide_eq_true_eq]; exact fun hand => hA hand.1)
      rw [if_neg hA, hfind]
      exact ih (i + 1) _ _ _ _ rfl rfl rfl rfl

/-- C3 amended: the best range end selected by `estimate_median`'s scan is the
first bucket at which the accumulated count exceeds `required_samples` and the
accumulated confirmed rate *strictly* exceeds `confirm_rate` (the scan does
*not* stop when the rate merely equals the threshold), with `0` as fallback. -/
theorem c3_amended_best_range (s : TxConfirmStat) (confirm_target required_samples : ℕ)
    (confirm_rate : ℚ) (_h1 : 1 ≤ confirm_target) :
    s.best_bucket_end confirm_target required_samples confirm_rate =
      amended_best_bucket_end s confirm_target required_samples confirm_rate := by
  unfold TxConfirmStat.best_bucket_end amended_best_bucket_end
  rw [List.range_eq_range']
  exact estimate_median_loop_eq_find s confirm_target required_samples confirm_rate
    s.buckets.length 0 0 0 0 0 rfl rfl rfl rfl

/-- Witness for the amended C3 on a concrete state. -/
theorem c3_amended_witness :
    1 ≤ 1 ∧
      c3cex_stat.best_bucket_end 1 20 (17 / 20) =
        amended_best_bucket_end c3cex_stat 1 20 (17 / 20) :=
  ⟨le_refl 1, c3_amended_best_range c3cex_stat 1 20 (17 / 20) (le_refl 1)⟩

set_option maxRecDepth 100000 in
set_option maxHeartbeats 1000000 in
/-- C3 counterexample: on `c3cex_stat` with `confirm_target = 1`,
`min_samples = 20`, `min_confirm_rate = 17/20`, bucket 0 already satisfies the
claim's stopping condition (accumulated count `34 > 20` and accumulated rate
exactly `17/20 ≥ 17/20`), so the claim predicts best range `[0, 0]`; the code
does not stop there and selects `[0, 1]`. -/
theorem c3_counterexample :
    prefix_txs_count c3cex_stat 0 = 34 ∧
      ((20 : ℕ) : ℚ) < prefix_txs_count c3cex_stat 0 ∧
      prefix_confirmed_rate c3cex_stat 1 0 = 17 / 20 ∧
      c3cex_stat.best_bucket_end 1 20 (17 / 20) = 1 ∧
      claimed_best_bucket_end c3cex_stat 1 20 (17 / 20) = 0 :=
  ⟨by decide, by decide, by decide, by decide, by decide⟩

end FeePolicy

namespace FeePolicy

/-! ### C2: association-list and counting lemmas -/

lemma mapLookup_nil (k : ℕ) : mapLookup [] k = none := rfl

lemma mapLookup_cons_pos {x : ℕ × TxRecord} {xs : List (ℕ × TxRecord)} {k : ℕ}
    (h : x.1 = k) : mapLookup (x :: xs) k = some x.2 := by
  unfold mapLookup
  rw [List.find?_cons_of_pos _ (by simpa using h)]
  rfl

lemma mapLookup_cons_neg {x : ℕ × TxRecord} {xs : List (ℕ × TxRecord)} {k : ℕ}
    (h : x.1 ≠ k) : mapLookup (x :: xs) k = mapLookup xs k := by
  unfold mapLookup
  rw [List.find?_cons_of_neg _ (by simpa using h)]

lemma mapLookup_eq_none_iff (m : List (ℕ × TxRecord)) (k : ℕ) :
    mapLookup m k = none ↔ ∀ p ∈ m, p.1 ≠ k := by
  unfold mapLookup
  simp [List.find?_eq_none]

lemma mapLookup_some_mem {m : List (ℕ × TxRecord)} {k : ℕ} {r : TxRecord}
    (h : mapLookup m k = some r) : (k, r) ∈ m := by
  unfold mapLookup at h
  rw [Option.map_eq_some'] at h
  obtain ⟨p, hp, hpr⟩ := h
  have hmem := List.mem_of_find?_eq_some hp
  have hkey : p.1 = k := by simpa using List.find?_some hp
  have hpkr : p = (k, r) := by
    cases p
    simp only at hkey hpr
    rw [hkey, hpr]
  rw [← hpkr]
  exact hmem

lemma mapRemove_cons_pos {x : ℕ × TxRecord} {xs : List (ℕ × TxRecord)} {k : ℕ}
    (h : x.1 = k) : mapRemove (x :: xs) k = mapRemove xs k := by
  unfold mapRemove
  rw [List.filter_cons]
  simp [h]

lemma mapRemove_cons_neg {x : ℕ × TxRecord} {xs : List (ℕ × TxRecord)} {k : ℕ}
    (h : x.1 ≠ k) : mapRemove (x :: xs) k = x :: mapRemove xs k := by
  unfold mapRemove
  rw [List.filter_cons]
  simp [h]

lemma mapRemove_eq_self {m : List (ℕ × TxRecord)} {k : ℕ}
    (h : ∀ p ∈ m, p.1 ≠ k) : mapRemove m k = m := by
  unfold mapRemove
  exact List.filter_eq_self.mpr fun a ha => by simpa using h a ha

lemma mapRemove_subset {m : List (ℕ × TxRecord)} {k : ℕ} :
    ∀ p ∈ mapRemove m k, p ∈ m := by
  intro p hp
  exact List.mem_of_mem_filter hp

lemma mapRemove_nodup {m : List (ℕ × TxRecord)} {k : ℕ}
    (h : (m.map Prod.fst).Nodup) : ((mapRemove m k).map Prod.fst).Nodup := by
  exact h.sublist (List.Sublist.map Prod.fst (List.filter_sublist m))

/-- Removing the looked-up entry of key `k` removes exactly one entry, the one
whose record is `r`; stated additively to stay in `ℕ`. -/
lemma countP_mapRemove (k : ℕ) (r : TxRecord) (p : ℕ × TxRecord → Bool) :
    ∀ (m : List (ℕ × TxRecord)), (m.map Prod.fst).Nodup →
      mapLookup m k = some r →
      (mapRemove m k).countP p + (if p (k, r) then 1 else 0) = m.countP p := by
  intro m
  induction m with
  | nil => intro _ hlk; cases hlk
  | cons x xs ih =>
    intro hnd hlk
    have hnd' : (xs.map Prod.fst).Nodup := by
      rw [List.map_cons] at hnd
      exact hnd.of_cons
    by_cases hk : x.1 = k
    · have hx2 : x.2 = r := by
        have hcp := @mapLookup_cons_pos x xs k hk
        rw [hlk] at hcp
        exact Option.some_inj.mp hcp.symm
      have hxkr : x = (k, r) := by
        cases x
        simp only at hk hx2
        rw [hk, hx2]
      have hx1notin : x.1 ∉ xs.map Prod.fst := by
        rw [List.map_cons] at hnd
        exact (List.nodup_cons.mp hnd).1
      have hnotail : ∀ q ∈ xs, q.1 ≠ k := by
        intro q hq hqk
        exact hx1notin (List.mem_map.mpr ⟨q, hq, by rw [hqk, hk]⟩)
      rw [mapRemove_cons_pos hk, mapRemove_eq_self hnotail, List.countP_cons, hxkr]
    · have hlk' : mapLookup xs k = some r := by
        rw [mapLookup_cons_neg hk] at hlk
        exact hlk
      rw [mapRemove_cons_neg hk, List.countP_cons, List.countP_cons]
      have hih := ih hnd' hlk'
      omega

lemma countP_or_disjoint (p q : ℕ × TxRecord → Bool) :
    ∀ (l : List (ℕ × TxRecord)),
      (∀ a ∈ l, ¬(p a = true ∧ q a = true)) →
      l.countP (fun a => p a || q a) = l.countP p + l.countP q := by
  intro l
  induction l with
  | nil => intro _; rfl
  | cons x xs ih =>
    intro hdis
    simp only [List.countP_cons, ih fun a ha => hdis a (List.mem_cons_of_mem x ha)]
    have hx := hdis x (List.mem_cons_self x xs)
    cases hp : p x <;> cases hq : q x <;> simp [hp, hq] at hx ⊢ <;> omega

/-- Summing one bucket column of the young-entry counts over all ring rows
counts every young entry of that bucket exactly once (each young entry sits in
the single row given by its height residue). -/
lemma sum_countP_isYoungAt (best W b : ℕ) (hW : 1 ≤ W) :
    ∀ (l : List (ℕ × TxRecord)),
      (∑ i in Finset.range W, l.countP (isYoungAt best W i b)) =
        l.countP (fun p => p.2.bucket_index == b && decide (best - p.2.height < W)) := by
  intro l
  induction l with
  | nil => simp
  | cons x xs ih =>
    simp only [List.countP_cons, Finset.sum_add_distrib, ih]
    congr 1
    by_cases hA : x.2.bucket_index = b
    · by_cases hC : best - x.2.height < W
      · have h1 : ∀ i, isYoungAt best W i b x = (x.2.height % W == i) := by
          intro i
          unfold isYoungAt
          rw [show (x.2.bucket_index == b) = true from beq_iff_eq.mpr hA,
            decide_eq_true hC]
          simp
        have h2 : (x.2.bucket_index == b && decide (best - x.2.height < W)) = true := by
          rw [show (x.2.bucket_index == b) = true from beq_iff_eq.mpr hA,
            decide_eq_true hC]
          rfl
        have hmem : x.2.height % W ∈ Finset.range W :=
          Finset.mem_range.mpr (Nat.mod_lt _ (by omega))
        simp only [h1, h2, if_true]
        calc (∑ i in Finset.range W, if (x.2.height % W == i) = true then 1 else 0)
            = ∑ i in Finset.range W, if x.2.height % W = i then 1 else 0 := by
              refine Finset.sum_congr rfl fun i _ => ?_
              simp [beq_iff_eq]
          _ = 1 := by
              rw [Finset.sum_ite_eq (Finset.range W) (x.2.height % W) (fun _ => 1),
                if_pos hmem]
      · have h1 : ∀ i, isYoungAt best W i b x = false := by
          intro i
          unfold isYoungAt
          rw [decide_eq_false hC]
          simp
        have h2 : (x.2.bucket_index == b && decide (best - x.2.height < W)) = false := by
          rw [decide_eq_false hC]
          simp
        simp [h1, h2]
    · have hA' : (x.2.bucket_index == b) = false := beq_eq_false_iff_ne.mpr hA
      have h1 : ∀ i, isYoungAt best W i b x = false := by
        intro i
        unfold isYoungAt
        rw [hA']
        simp
      have h2 : (x.2.bucket_index == b && decide (best - x.2.height < W)) = false := by
        rw [hA']
        simp
      simp [h1, h2]

/-- Young and aged entries of bucket `b` partition the tracked entries of
bucket `b`. -/
lemma countP_young_aged (best W b : ℕ) :
    ∀ (l : List (ℕ × TxRecord)),
      l.countP (fun p => p.2.bucket_index == b && decide (best - p.2.height < W)) +
        l.countP (isAgedAt best W b) =
      l.countP (fun p => p.2.bucket_index == b) := by
  intro l
  induction l with
  | nil => rfl
  | cons x xs ih =>
    simp only [List.countP_cons]
    by_cases hA : x.2.bucket_index = b
    · have hA' : (x.2.bucket_index == b) = true := beq_iff_eq.mpr hA
      by_cases hC : best - x.2.height < W
      · have hyoung : (x.2.bucket_index == b && decide (best - x.2.height < W)) = true := by
          rw [hA', decide_eq_true hC]
          rfl
        have haged : isAgedAt best W b x = false := by
          unfold isAgedAt
          rw [decide_eq_false (by omega : ¬ W ≤ best - x.2.height)]
          simp
        rw [hyoung, haged, hA']
        simp only [eq_self_iff_true, if_true, Bool.false_eq_true, if_false]
        omega
      · have hyoung : (x.2.bucket_index == b && decide (best - x.2.height < W)) = false := by
          rw [decide_eq_false hC]
          simp
        have haged : isAgedAt best W b x = true := by
          unfold isAgedAt
          rw [hA', decide_eq_true (by omega : W ≤ best - x.2.height)]
          rfl
        rw [hyoung, haged, hA']
        simp only [eq_self_iff_true, if_true, Bool.false_eq_true, if_false]
        omega
    · have hA' : (x.2.bucket_index == b) = false := beq_eq_false_iff_ne.mpr hA
      have hyoung : (x.2.bucket_index == b && decide (best - x.2.height < W)) = false := by
        rw [hA']
        simp
      have haged : isAgedAt best W b x = false := by
        unfold isAgedAt
        rw [hA']
        simp
      rw [hyoung, haged, hA']
      simp only [Bool.false_eq_true, if_false]
      omega

/-- From the bookkeeping invariant, the C2 sum identity follows: the ring
column plus `old_unconfirmed_txs` equals the tracked count of the bucket. -/
lemma EstInv_sum {e : Estimator} (hInv : EstInv e) (b : ℕ) :
    ringSum e.tx_confirm_stat b +
      (e.tx_confirm_stat.bucket_stats b).old_unconfirmed_txs = trackedCount e b := by
  obtain ⟨hW, _, _, hRing, hOld⟩ := hInv
  unfold ringSum trackedCount
  rw [Finset.sum_congr rfl (fun i hi => hRing i b (Finset.mem_range.mp hi)), hOld b,
    sum_countP_isYoungAt e.best_height e.tx_confirm_stat.max_confirm_blocks b hW,
    countP_young_aged]

/-! ### C2: field characterizations of the stat operations -/

lemma move_track_window_fields (s : TxConfirmStat) (h : ℕ) :
    (s.move_track_window h).max_confirm_blocks = s.max_confirm_blocks ∧
      (s.move_track_window h).buckets = s.buckets ∧
      (∀ i b, (s.move_track_window h).block_unconfirmed_txs i b =
        if i = h % s.max_confirm_blocks ∧ b < s.buckets.length then 0
        else s.block_unconfirmed_txs i b) ∧
      (∀ b, ((s.move_track_window h).bucket_stats b).old_unconfirmed_txs =
        if b < s.buckets.length then
          (s.bucket_stats b).old_unconfirmed_txs +
            s.block_unconfirmed_txs (h % s.max_confirm_blocks) b
        else (s.bucket_stats b).old_unconfirmed_txs) := by
  refine ⟨rfl, rfl, fun i b => rfl, fun b => ?_⟩
  unfold TxConfirmStat.move_track_window
  dsimp only
  by_cases hb : b < s.buckets.length <;> simp [hb]

lemma decay_ring (s : TxConfirmStat) :
    ∀ i b, s.decay.block_unconfirmed_txs i b = s.block_unconfirmed_txs i b :=
  fun _ _ => rfl

lemma decay_old (s : TxConfirmStat) :
    ∀ b, (s.decay.bucket_stats b).old_unconfirmed_txs =
      (s.bucket_stats b).old_unconfirmed_txs := by
  intro b
  unfold TxConfirmStat.decay
  dsimp only
  by_cases hb : b < s.buckets.length <;> simp [hb]

lemma add_confirmed_tx_fields (s : TxConfirmStat) (K : ℕ) (r : ℚ) :
    (s.add_confirmed_tx K r).max_confirm_blocks = s.max_confirm_blocks ∧
      (s.add_confirmed_tx K r).buckets = s.buckets ∧
      (∀ i b, (s.add_confirmed_tx K r).block_unconfirmed_txs i b =
        s.block_unconfirmed_txs i b) ∧
      (∀ b, ((s.add_confirmed_tx K r).bucket_stats b).old_unconfirmed_txs =
        (s.bucket_stats b).old_unconfirmed_txs) := by
  unfold TxConfirmStat.add_confirmed_tx
  by_cases hK : K < 1
  · rw [if_pos hK]
    exact ⟨rfl, rfl, fun _ _ => rfl, fun _ => rfl⟩
  · rw [if_neg hK]
    cases hb : s.bucket_index_by_feerate r with
    | none => exact ⟨rfl, rfl, fun _ _ => rfl, fun _ => rfl⟩
    | some bi =>
      refine ⟨rfl, rfl, fun _ _ => rfl, fun b => ?_⟩
      dsimp only
      by_cases hbb : b = bi <;> simp [hbb]

lemma remove_unconfirmed_tx_fields (s : TxConfirmStat) (entry tip bucket : ℕ)
    (cf : Bool) :
    (s.remove_unconfirmed_tx entry tip bucket cf).max_confirm_blocks =
        s.max_confirm_blocks ∧
      (s.remove_unconfirmed_tx entry tip bucket cf).buckets = s.buckets ∧
      (∀ i b, (s.remove_unconfirmed_tx entry tip bucket cf).block_unconfirmed_txs i b =
        if 1 ≤ tip - entry ∧ tip - entry < s.max_confirm_blocks ∧
            i = entry % s.max_confirm_blocks ∧ b = bucket then
          s.block_unconfirmed_txs i b - 1
        else s.block_unconfirmed_txs i b) ∧
      (∀ b, ((s.remove_unconfirmed_tx entry tip bucket cf).bucket_stats
          b).old_unconfirmed_txs =
        if 1 ≤ tip - entry ∧ s.max_confirm_blocks ≤ tip - entry ∧ b = bucket then
          (s.bucket_stats b).old_unconfirmed_txs - 1
        else (s.bucket_stats b).old_unconfirmed_txs) := by
  unfold TxConfirmStat.remove_unconfirmed_tx
  dsimp only
  by_cases h1 : tip - entry < 1
  · rw [if_pos h1]
    refine ⟨rfl, rfl, fun i b => ?_, fun b => ?_⟩
    · split_ifs <;> (try dsimp only) <;> omega
    · split_ifs <;> (try dsimp only) <;> omega
  · rw [if_neg h1]
    by_cases h2 : s.max_confirm_blocks ≤ tip - entry
    · rw [if_pos h2]
      refine ⟨?_, ?_, fun i b => ?_, fun b => ?_⟩
      · cases cf <;> rfl
      · cases cf <;> rfl
      · cases cf
        · simp only [Bool.false_eq_true, if_false]
          try dsimp only
          split_ifs <;> (try dsimp only) <;> omega
        · simp only [eq_self_iff_true, if_true]
          try dsimp only
          split_ifs <;> (try dsimp only) <;> omega
      · cases cf
        · simp only [Bool.false_eq_true, if_false]
          try dsimp only
          split_ifs <;> (try dsimp only) <;> omega
        · simp only [eq_self_iff_true, if_true]
          try dsimp only
          split_ifs <;> (try dsimp only) <;> omega
    · rw [if_neg h2]
      refine ⟨?_, ?_, fun i b => ?_, fun b => ?_⟩
      · cases cf <;> rfl
      · cases cf <;> rfl
      · cases cf
        · simp only [Bool.false_eq_true, if_false]
          try dsimp only
          split_ifs <;> (try dsimp only) <;> omega
        · simp only [eq_self_iff_true, if_true]
          try dsimp only
          split_ifs <;> (try dsimp only) <;> omega
      · cases cf
        · simp only [Bool.false_eq_true, if_false]
          try dsimp only
          split_ifs <;> (try dsimp only) <;> omega
        · simp only [eq_self_iff_true, if_true]
          try dsimp only
          split_ifs <;> (try dsimp only) <;> omega

end FeePolicy

namespace FeePolicy

/-! ### C2: preservation of the invariant by each event -/

/-- Dropping (or resolving) a transaction that was not tracked at the current
best height preserves the bookkeeping invariant; the best height is unchanged
and the tracked map only shrinks. -/
lemma EstInv_drop_tx_inner (e : Estimator) (k : ℕ) (cf : Bool) (hInv : EstInv e)
    (hne : ∀ r, mapLookup e.tracked_txs k = some r → r.height ≠ e.best_height) :
    EstInv (e.drop_tx_inner k cf).2 ∧
      (e.drop_tx_inner k cf).2.best_height = e.best_height ∧
      (∀ p ∈ (e.drop_tx_inner k cf).2.tracked_txs, p ∈ e.tracked_txs) := by
  obtain ⟨hW, hHB, hND, hRing, hOld⟩ := hInv
  unfold Estimator.drop_tx_inner
  cases hlk : mapLookup e.tracked_txs k with
  | none =>
    exact ⟨⟨hW, hHB, hND, hRing, hOld⟩, rfl, fun p hp => hp⟩
  | some r =>
    have hmem : (k, r) ∈ e.tracked_txs := mapLookup_some_mem hlk
    have hle : r.height ≤ e.best_height := (hHB _ hmem).1
    have hne' : r.height ≠ e.best_height := hne r hlk
    have hage : 1 ≤ e.best_height - r.height := by omega
    obtain ⟨hsW, hsB, hsRing, hsOld⟩ :=
      remove_unconfirmed_tx_fields e.tx_confirm_stat r.height e.best_height
        r.bucket_index cf
    dsimp only
    refine ⟨⟨?_, ?_, ?_, ?_, ?_⟩, rfl, fun p hp => mapRemove_subset p hp⟩
    · rw [hsW]
      exact hW
    · intro p hp
      have hmem' := mapRemove_subset p hp
      rw [hsB]
      exact hHB p hmem'
    · exact mapRemove_nodup hND
    · intro i b hi
      dsimp only at hi ⊢
      rw [hsW] at hi ⊢
      rw [hsRing i b]
      have hcnt := countP_mapRemove k r
        (isYoungAt e.best_height e.tx_confirm_stat.max_confirm_blocks i b)
        e.tracked_txs hND hlk
      have hrg := hRing i b hi
      by_cases hyoung :
          e.best_height - r.height < e.tx_confirm_stat.max_confirm_blocks
      · by_cases hslot : i = r.height % e.tx_confirm_stat.max_confirm_blocks ∧
            b = r.bucket_index
        · have hY : isYoungAt e.best_height e.tx_confirm_stat.max_confirm_blocks i b
              (k, r) = true := by
            unfold isYoungAt
            rw [show (r.bucket_index == b) = true from beq_iff_eq.mpr hslot.2.symm,
              show (r.height % e.tx_confirm_stat.max_confirm_blocks == i) = true from
                beq_iff_eq.mpr hslot.1.symm,
              decide_eq_true hyoung]
            rfl
          rw [hY] at hcnt
          simp only [eq_self_iff_true, if_true] at hcnt
          rw [if_pos ⟨hage, hyoung, hslot.1, hslot.2⟩]
          omega
        · have hY : isYoungAt e.best_height e.tx_confirm_stat.max_confirm_blocks i b
              (k, r) = false := by
            unfold isYoungAt
            by_cases hb2 : r.bucket_index = b
            · have hi2 : ¬ r.height % e.tx_confirm_stat.max_confirm_blocks = i :=
                fun hh => hslot ⟨hh.symm, hb2.symm⟩
              rw [beq_eq_false_iff_ne.mpr hi2]
              simp
            · rw [beq_eq_false_iff_ne.mpr hb2]
              simp
          rw [hY] at hcnt
          simp only [Bool.false_eq_true, if_false] at hcnt
          rw [if_neg (fun hcond => hslot ⟨hcond.2.2.1, hcond.2.2.2⟩)]
          omega
      · have hY : isYoungAt e.best_height e.tx_confirm_stat.max_confirm_blocks i b
            (k, r) = false := by
          unfold isYoungAt
          rw [decide_eq_false hyoung]
          simp
        rw [hY] at hcnt
        simp only [Bool.false_eq_true, if_false] at hcnt
        rw [if_neg (fun hcond => hyoung hcond.2.1)]
        omega
    · intro b
      dsimp only
      rw [hsW]
      rw [hsOld b]
      have hcnt := countP_mapRemove k r
        (isAgedAt e.best_height e.tx_confirm_stat.max_confirm_blocks b)
        e.tracked_txs hND hlk
      have hod := hOld b
      by_cases haged :
          e.tx_confirm_stat.max_confirm_blocks ≤ e.best_height - r.height
      · by_cases hb2 : b = r.bucket_index
        · have hY : isAgedAt e.best_height e.tx_confirm_stat.max_confirm_blocks b
              (k, r) = true := by
            unfold isAgedAt
            rw [show (r.bucket_index == b) = true from beq_iff_eq.mpr hb2.symm,
              decide_eq_true haged]
            rfl
          rw [hY] at hcnt
          simp only [eq_self_iff_true, if_true] at hcnt
          rw [if_pos ⟨hage, haged, hb2⟩]
          omega
        · have hY : isAgedAt e.best_height e.tx_confirm_stat.max_confirm_blocks b
              (k, r) = false := by
            unfold isAgedAt
            rw [beq_eq_false_iff_ne.mpr (fun hh => hb2 hh.symm)]
            simp
          rw [hY] at hcnt
          simp only [Bool.false_eq_true, if_false] at hcnt
          rw [if_neg (fun hcond => hb2 hcond.2.2)]
          omega
      · have hY : isAgedAt e.best_height e.tx_confirm_stat.max_confirm_blocks b
            (k, r) = false := by
          unfold isAgedAt
          rw [decide_eq_false haged]
          simp
        rw [hY] at hcnt
        simp only [Bool.false_eq_true, if_false] at hcnt
        rw [if_neg (fun hcond => haged hcond.2.1)]
        omega

end FeePolicy

namespace FeePolicy

/-- Tracking a new transaction preserves the bookkeeping invariant. -/
lemma EstInv_track_tx (e : Estimator) (tx : TxEntry) (hInv : EstInv e) :
    EstInv (e.track_tx tx) := by
  obtain ⟨hW, hHB, hND, hRing, hOld⟩ := hInv
  unfold Estimator.track_tx
  by_cases hdup : (mapLookup e.tracked_txs tx.hash).isSome
  · rw [if_pos hdup]
    exact ⟨hW, hHB, hND, hRing, hOld⟩
  · rw [if_neg hdup]
    by_cases hh : tx.height ≠ e.best_height
    · rw [if_pos hh]
      exact ⟨hW, hHB, hND, hRing, hOld⟩
    · rw [if_neg hh]
      push_neg at hh
      cases hbi : e.tx_confirm_stat.bucket_index_by_feerate tx.feerate with
      | none =>
        have hadd : e.tx_confirm_stat.add_unconfirmed_tx tx.height tx.feerate =
            (none, e.tx_confirm_stat) := by
          unfold TxConfirmStat.add_unconfirmed_tx
          rw [hbi]
        rw [hadd]
        exact ⟨hW, hHB, hND, hRing, hOld⟩
      | some bi =>
        have hadd : e.tx_confirm_stat.add_unconfirmed_tx tx.height tx.feerate =
            (some bi,
              { e.tx_confirm_stat with block_unconfirmed_txs := fun i b =>
                  if i = tx.height % e.tx_confirm_stat.max_confirm_blocks ∧ b = bi then
                    e.tx_confirm_stat.block_unconfirmed_txs i b + 1
                  else e.tx_confirm_stat.block_unconfirmed_txs i b }) := by
          unfold TxConfirmStat.add_unconfirmed_tx
          rw [hbi]
        rw [hadd]
        dsimp only
        have hnotin : ∀ p ∈ e.tracked_txs, p.1 ≠ tx.hash := by
          rcases hcase : mapLookup e.tracked_txs tx.hash with _ | v
          · exact (mapLookup_eq_none_iff _ _).mp hcase
          · rw [hcase] at hdup
            exact absurd rfl hdup
        refine ⟨hW, ?_, ?_, ?_, ?_⟩
        · intro p hp
          rcases List.mem_cons.mp hp with rfl | hp'
          · exact ⟨le_of_eq hh, bucket_index_lt_length hbi⟩
          · exact hHB p hp'
        · rw [List.map_cons]
          refine List.nodup_cons.mpr ⟨fun hmem => ?_, hND⟩
          obtain ⟨q, hq, hq1⟩ := List.mem_map.mp hmem
          exact hnotin q hq hq1
        · intro i b hi
          dsimp only at hi ⊢
          rw [List.countP_cons]
          by_cases hcond : i = tx.height % e.tx_confirm_stat.max_confirm_blocks ∧
              b = bi
          · have hY : isYoungAt e.best_height e.tx_confirm_stat.max_confirm_blocks i b
                (tx.hash, { height := tx.height, bucket_index := bi }) = true := by
              unfold isYoungAt
              dsimp only
              rw [show (bi == b) = true from beq_iff_eq.mpr hcond.2.symm,
                show (tx.height % e.tx_confirm_stat.max_confirm_blocks == i) = true from
                  beq_iff_eq.mpr hcond.1.symm,
                decide_eq_true (by rw [hh]; omega :
                  e.best_height - tx.height < e.tx_confirm_stat.max_confirm_blocks)]
              rfl
            rw [hY, if_pos hcond, hRing i b hi]
            simp
          · have hY : isYoungAt e.best_height e.tx_confirm_stat.max_confirm_blocks i b
                (tx.hash, { height := tx.height, bucket_index := bi }) = false := by
              unfold isYoungAt
              dsimp only
              by_cases hb2 : bi = b
              · have hi2 : ¬ tx.height % e.tx_confirm_stat.max_confirm_blocks = i :=
                  fun hh2 => hcond ⟨hh2.symm, hb2.symm⟩
                rw [beq_eq_false_iff_ne.mpr hi2]
                simp
              · rw [beq_eq_false_iff_ne.mpr hb2]
                simp
            rw [hY, if_neg hcond, hRing i b hi]
            simp
        · intro b
          dsimp only
          rw [List.countP_cons]
          have hY : isAgedAt e.best_height e.tx_confirm_stat.max_confirm_blocks b
              (tx.hash, { height := tx.height, bucket_index := bi }) = false := by
            unfold isAgedAt
            dsimp only
            rw [decide_eq_false (by rw [hh]; omega :
              ¬ e.tx_confirm_stat.max_confirm_blocks ≤ e.best_height - tx.height)]
            simp
          rw [hY, hOld b]
          simp

end FeePolicy

namespace FeePolicy

/-- Advancing the best height by exactly one block and rolling the tracking
window preserves the bookkeeping invariant: the retired ring slot is exactly
the slot of the entries that turn `max_confirm_blocks` old, and their counts
move into `old_unconfirmed_txs`. -/
lemma EstInv_advance (e : Estimator) (hInv : EstInv e) (h : ℕ)
    (hstep : h = e.best_height + 1) :
    EstInv { e with
      best_height := h
      tx_confirm_stat := e.tx_confirm_stat.move_track_window h } ∧
      (∀ p ∈ e.tracked_txs, p.2.height < h) := by
  obtain ⟨hW, hHB, hND, hRing, hOld⟩ := hInv
  obtain ⟨hmW, hmB, hmRing, hmOld⟩ := move_track_window_fields e.tx_confirm_stat h
  have hstrict : ∀ p ∈ e.tracked_txs, p.2.height < h := by
    intro p hp
    have := (hHB p hp).1
    omega
  refine ⟨⟨?_, ?_, hND, ?_, ?_⟩, hstrict⟩
  · dsimp only
    rw [hmW]
    exact hW
  · intro p hp
    dsimp only
    rw [hmB]
    exact ⟨le_of_lt (hstrict p hp), (hHB p hp).2⟩
  · intro i b hi
    dsimp only at hi ⊢
    rw [hmW] at hi ⊢
    rw [hmRing i b]
    by_cases hcase : i = h % e.tx_confirm_stat.max_confirm_blocks ∧
        b < e.tx_confirm_stat.buckets.length
    · rw [if_pos hcase]
      symm
      rw [List.countP_eq_zero]
      intro p hp hY
      unfold isYoungAt at hY
      simp only [Bool.and_eq_true, beq_iff_eq, decide_eq_true_eq] at hY
      obtain ⟨⟨hb2, hs2⟩, hage2⟩ := hY
      have hplt : p.2.height < h := hstrict p hp
      have hdvd : e.tx_confirm_stat.max_confirm_blocks ∣ h - p.2.height := by
        have hmodeq : Nat.ModEq e.tx_confirm_stat.max_confirm_blocks p.2.height h := by
          show p.2.height % e.tx_confirm_stat.max_confirm_blocks =
            h % e.tx_confirm_stat.max_confirm_blocks
          rw [hs2, hcase.1]
        exact (Nat.modEq_iff_dvd' (le_of_lt hplt)).mp hmodeq
      have hle' := Nat.le_of_dvd (by omega) hdvd
      omega
    · rw [if_neg hcase]
      rw [hRing i b hi]
      apply List.countP_congr
      intro p hp
      have hplt : p.2.height < h := hstrict p hp
      have hple : p.2.height ≤ e.best_height := (hHB p hp).1
      have hblt : p.2.bucket_index < e.tx_confirm_stat.buckets.length := (hHB p hp).2
      unfold isYoungAt
      simp only [Bool.and_eq_true, beq_iff_eq, decide_eq_true_eq]
      constructor
      · rintro ⟨⟨hb2, hs2⟩, hage2⟩
        refine ⟨⟨hb2, hs2⟩, ?_⟩
        by_contra hcon
        have heq : h - p.2.height = e.tx_confirm_stat.max_confirm_blocks := by omega
        have hheq : h = p.2.height + e.tx_confirm_stat.max_confirm_blocks := by omega
        have hmod : h % e.tx_confirm_stat.max_confirm_blocks =
            p.2.height % e.tx_confirm_stat.max_confirm_blocks := by
          rw [hheq]
          exact Nat.add_mod_right _ _
        exact hcase ⟨by rw [← hs2, ← hmod], by rw [← hb2]; exact hblt⟩
      · rintro ⟨⟨hb2, hs2⟩, hage2⟩
        exact ⟨⟨hb2, hs2⟩, by omega⟩
  · intro b
    dsimp only
    rw [hmW]
    rw [hmOld b]
    by_cases hb : b < e.tx_confirm_stat.buckets.length
    · rw [if_pos hb]
      rw [hOld b, hRing (h % e.tx_confirm_stat.max_confirm_blocks) b
        (Nat.mod_lt _ (by omega))]
      have hcongr : ∀ p ∈ e.tracked_txs,
          isAgedAt h e.tx_confirm_stat.max_confirm_blocks b p = true ↔
            (isAgedAt e.best_height e.tx_confirm_stat.max_confirm_blocks b p ||
              isYoungAt e.best_height e.tx_confirm_stat.max_confirm_blocks
                (h % e.tx_confirm_stat.max_confirm_blocks) b p) = true := by
        intro p hp
        have hple : p.2.height ≤ e.best_height := (hHB p hp).1
        unfold isAgedAt isYoungAt
        simp only [Bool.or_eq_true, Bool.and_eq_true, beq_iff_eq, decide_eq_true_eq]
        constructor
        · rintro ⟨hb2, hage2⟩
          by_cases hold : e.tx_confirm_stat.max_confirm_blocks ≤
              e.best_height - p.2.height
          · exact Or.inl ⟨hb2, hold⟩
          · refine Or.inr ⟨⟨hb2, ?_⟩, by omega⟩
            have hheq : h = p.2.height + e.tx_confirm_stat.max_confirm_blocks := by
              omega
            rw [hheq]
            exact (Nat.add_mod_right _ _).symm
        · rintro (⟨hb2, hage2⟩ | ⟨⟨hb2, hs2⟩, hage2⟩)
          · exact ⟨hb2, by omega⟩
          · refine ⟨hb2, ?_⟩
            have hdvd : e.tx_confirm_stat.max_confirm_blocks ∣ h - p.2.height := by
              have hmodeq : Nat.ModEq e.tx_confirm_stat.max_confirm_blocks
                  p.2.height h := by
                show p.2.height % e.tx_confirm_stat.max_confirm_blocks =
                  h % e.tx_confirm_stat.max_confirm_blocks
                rw [hs2]
              exact (Nat.modEq_iff_dvd' (by omega)).mp hmodeq
            have hle' := Nat.le_of_dvd (by omega) hdvd
            omega
      rw [List.countP_congr hcongr]
      rw [countP_or_disjoint _ _ e.tracked_txs]
      intro a _ hcon
      obtain ⟨ha1, ha2⟩ := hcon
      unfold isAgedAt at ha1
      unfold isYoungAt at ha2
      simp only [Bool.and_eq_true, beq_iff_eq, decide_eq_true_eq] at ha1 ha2
      omega
    · rw [if_neg hb]
      rw [hOld b]
      apply List.countP_congr
      intro p hp
      have hblt : p.2.bucket_index < e.tx_confirm_stat.buckets.length := (hHB p hp).2
      have hb2 : ¬ p.2.bucket_index = b := by omega
      unfold isAgedAt
      rw [beq_eq_false_iff_ne.mpr hb2]
      simp

end FeePolicy

namespace FeePolicy

attribute [local semireducible] Rat.add Rat.mul Rat.sub Rat.inv

/-- Decay touches neither the ring buffer, the old-unconfirmed counters, nor
the tracked map, so it preserves the bookkeeping invariant. -/
lemma EstInv_decay (e : Estimator) (hInv : EstInv e) :
    EstInv { e with tx_confirm_stat := e.tx_confirm_stat.decay } := by
  obtain ⟨hW, hHB, hND, hRing, hOld⟩ := hInv
  refine ⟨?_, ?_, hND, ?_, ?_⟩
  · dsimp only
    rw [decay_max_confirm_blocks]
    exact hW
  · intro p hp
    dsimp only
    rw [decay_buckets]
    exact hHB p hp
  · intro i b hi
    dsimp only at hi ⊢
    rw [decay_max_confirm_blocks] at hi ⊢
    rw [decay_ring]
    exact hRing i b hi
  · intro b
    dsimp only
    rw [decay_max_confirm_blocks, decay_old]
    exact hOld b

/-- Recording a confirmed sample touches neither the ring buffer, the
old-unconfirmed counters, nor the tracked map. -/
lemma EstInv_add_confirmed (e : Estimator) (K : ℕ) (r : ℚ) (hInv : EstInv e) :
    EstInv { e with tx_confirm_stat := e.tx_confirm_stat.add_confirmed_tx K r } := by
  obtain ⟨hW, hHB, hND, hRing, hOld⟩ := hInv
  obtain ⟨haW, haB, haRing, haOld⟩ := add_confirmed_tx_fields e.tx_confirm_stat K r
  refine ⟨?_, ?_, hND, ?_, ?_⟩
  · dsimp only
    rw [haW]
    exact hW
  · intro p hp
    dsimp only
    rw [haB]
    exact hHB p hp
  · intro i b hi
    dsimp only at hi ⊢
    rw [haW] at hi ⊢
    rw [haRing]
    exact hRing i b hi
  · intro b
    dsimp only
    rw [haW, haOld]
    exact hOld b

/-- Resolving one block transaction preserves the invariant, keeps the best
height, and only shrinks the tracked map. -/
lemma EstInv_process_block_tx (e : Estimator) (height : ℕ) (tx : TxEntry)
    (hInv : EstInv e) (hstrict : ∀ p ∈ e.tracked_txs, p.2.height < e.best_height) :
    EstInv (e.process_block_tx height tx).2 ∧
      (e.process_block_tx height tx).2.best_height = e.best_height ∧
      (∀ p ∈ (e.process_block_tx height tx).2.tracked_txs, p ∈ e.tracked_txs) := by
  have hne : ∀ r, mapLookup e.tracked_txs tx.hash = some r →
      r.height ≠ e.best_height := by
    intro r hr
    have hlt : r.height < e.best_height := hstrict _ (mapLookup_some_mem hr)
    omega
  obtain ⟨hd1, hd2, hd3⟩ := EstInv_drop_tx_inner e tx.hash false hInv hne
  unfold Estimator.process_block_tx
  rcases hdrop : e.drop_tx_inner tx.hash false with ⟨bres, e'⟩
  rw [hdrop] at hd1 hd2 hd3
  cases bres
  · exact ⟨hd1, hd2, hd3⟩
  · dsimp only at hd1 hd2 hd3 ⊢
    refine ⟨EstInv_add_confirmed e' _ _ hd1, hd2, hd3⟩

/-- The block-transaction fold preserves the invariant. -/
lemma EstInv_foldl (height : ℕ) (txs : List TxEntry) :
    ∀ (n : ℕ) (e : Estimator), EstInv e →
      (∀ p ∈ e.tracked_txs, p.2.height < e.best_height) →
      EstInv ((txs.foldl (Estimator.process_block_step height) (n, e)).2) := by
  induction txs with
  | nil => intro n e hInv _; exact hInv
  | cons t ts ih =>
    intro n e hInv hstrict
    obtain ⟨h1, h2, h3⟩ := EstInv_process_block_tx e height t hInv hstrict
    rw [List.foldl_cons]
    have hstep : Estimator.process_block_step height (n, e) t =
        (n + (if (e.process_block_tx height t).1 then 1 else 0),
          (e.process_block_tx height t).2) := rfl
    rw [hstep]
    apply ih _ _ h1
    intro p hp
    rw [h2]
    exact hstrict p (h3 p hp)

/-- `process_block` preserves the invariant for stale heights and for height
advances of exactly one block. -/
lemma EstInv_process_block (e : Estimator) (height : ℕ) (txs : List TxEntry)
    (hInv : EstInv e) (hgood : height ≤ e.best_height ∨ height = e.best_height + 1) :
    EstInv (e.process_block height txs) := by
  unfold Estimator.process_block
  by_cases hle : height ≤ e.best_height
  · rw [if_pos hle]
    exact hInv
  · rw [if_neg hle]
    have hstep : height = e.best_height + 1 := hgood.resolve_left hle
    dsimp only
    obtain ⟨hInv2, hstrict2⟩ := EstInv_advance e hInv height hstep
    have hInv3 := EstInv_decay _ hInv2
    have hfold := EstInv_foldl height txs 0 _ hInv3 (by
      intro p hp
      exact hstrict2 p hp)
    split
    · exact ⟨hfold.1, hfold.2.1, hfold.2.2.1, hfold.2.2.2.1, hfold.2.2.2.2⟩
    · exact hfold

/-- Every `goodOp` event preserves the bookkeeping invariant. -/
lemma EstInv_applyOp (e : Estimator) (op : Op) (hInv : EstInv e)
    (hgood : goodOp e op = true) : EstInv (applyOp e op) := by
  cases op with
  | track tx => exact EstInv_track_tx e tx hInv
  | process height txs =>
    apply EstInv_process_block e height txs hInv
    unfold goodOp at hgood
    simp only [Bool.or_eq_true, decide_eq_true_eq] at hgood
    exact hgood
  | drop k =>
    have hgood' : ∀ r, mapLookup e.tracked_txs k = some r →
        r.height ≠ e.best_height := by
      intro r hr
      simp only [goodOp] at hgood
      rw [hr] at hgood
      simpa using hgood
    exact (EstInv_drop_tx_inner e k true hInv hgood').1

/-- The freshly constructed estimator satisfies the bookkeeping invariant. -/
lemma EstInv_new : EstInv Estimator.new := by
  refine ⟨?_, ?_, ?_, ?_, ?_⟩
  · show 1 ≤ MAX_CONFIRM_BLOCKS
    norm_num [MAX_CONFIRM_BLOCKS]
  · intro p hp
    cases hp
  · exact List.nodup_nil
  · intro i b _
    rfl
  · intro b
    rfl

/-- Good event sequences preserve the invariant from the fresh estimator. -/
lemma EstInv_applyOps :
    ∀ (ops : List Op) (e : Estimator), EstInv e → goodOps e ops = true →
      EstInv (applyOps e ops) := by
  intro ops
  induction ops with
  | nil => intro e h _; exact h
  | cons op rest ih =>
    intro e h hg
    unfold goodOps at hg
    rw [Bool.and_eq_true] at hg
    exact ih _ (EstInv_applyOp e op h hg.1) hg.2

/-- C2 amended: for every event sequence on a fresh estimator in which each
`process_block` either repeats a stale height or advances the best height by
exactly one, and no `drop_tx` removes a transaction in the block in which it
was tracked, the ring-buffer column of bucket `b` plus its
`old_unconfirmed_txs` equals the number of currently tracked transactions in
bucket `b`. -/
theorem c2_amended_ring_invariant (ops : List Op)
    (hgood : goodOps Estimator.new ops = true) (b : ℕ) :
    ringSum (applyOps Estimator.new ops).tx_confirm_stat b +
      ((applyOps Estimator.new ops).tx_confirm_stat.bucket_stats
          b).old_unconfirmed_txs =
      trackedCount (applyOps Estimator.new ops) b :=
  EstInv_sum (EstInv_applyOps ops Estimator.new EstInv_new hgood) b

/-- Witness for the amended C2 on a concrete good event sequence. -/
theorem c2_amended_witness :
    goodOps Estimator.new [Op.process 1 []] = true ∧
      ringSum (applyOps Estimator.new [Op.process 1 []]).tx_confirm_stat 0 +
        ((applyOps Estimator.new [Op.process 1 []]).tx_confirm_stat.bucket_stats
            0).old_unconfirmed_txs =
        trackedCount (applyOps Estimator.new [Op.process 1 []]) 0 :=
  ⟨by decide, c2_amended_ring_invariant [Op.process 1 []] (by decide) 0⟩

set_option maxRecDepth 1000000 in
set_option maxHeartbeats 2000000 in
/-- C2 counterexample: track a transaction at height 0 and drop it in the same
block.  The `tx_age < 1` early return of `remove_unconfirmed_tx` leaves the
ring-buffer count of bucket 15 at 1 while the tracked map becomes empty, so
the claimed sum identity fails. -/
theorem c2_counterexample :
    ringSum c2cex_est.tx_confirm_stat 15 +
        (c2cex_est.tx_confirm_stat.bucket_stats 15).old_unconfirmed_txs = 1 ∧
      trackedCount c2cex_est 15 = 0 ∧
      ¬ (ringSum c2cex_est.tx_confirm_stat 15 +
          (c2cex_est.tx_confirm_stat.bucket_stats 15).old_unconfirmed_txs =
        trackedCount c2cex_est 15) :=
  ⟨by decide, by decide, by decide⟩

end FeePolicy

namespace FeePolicy

attribute [local semireducible] Rat.add Rat.mul Rat.sub Rat.inv

/-! ### C4 -/

set_option maxRecDepth 1000000 in
set_option maxHeartbeats 4000000 in
/-- C4 counterexample: on a *fresh* estimator (`best_height = 0`), every
height-10 `track_tx` call is silently ignored (`tx.height ≠ best_height`), so
the claim's scenario yields `estimate 2 = 0`, which does not lie in the bucket
containing 2000 (`bucket_index_by_feerate` classifies the result into bucket 0,
not bucket 15). -/
theorem c4_counterexample :
    c4_claim_est.estimate 2 = 0 ∧
      c4_claim_est.tx_confirm_stat.bucket_index_by_feerate
          (c4_claim_est.estimate 2) ≠
        c4_claim_est.tx_confirm_stat.bucket_index_by_feerate 2000 :=
  ⟨by decide, by decide⟩

set_option maxRecDepth 1000000 in
set_option maxHeartbeats 4000000 in
/-- C4 amended: after first advancing the estimator to height 10 with an empty
block, tracking the 25 feerate-2000 transactions at height 10 and processing
them in a block at height 12 makes `estimate 2` return exactly `2000`, which
lies in the bucket containing 2000 (bucket index 15). -/
theorem c4_amended_scenario :
    c4_amended_est.estimate 2 = 2000 ∧
      c4_amended_est.tx_confirm_stat.bucket_index_by_feerate
          (c4_amended_est.estimate 2) =
        c4_amended_est.tx_confirm_stat.bucket_index_by_feerate 2000 ∧
      c4_amended_est.tx_confirm_stat.bucket_index_by_feerate 2000 = some 15 :=
  ⟨by decide, by decide, by decide⟩

end FeePolicy
